import Mathlib

/-!
Verification of the changelog markdown engine of cargo-smart-release.

The development shallowly embeds `src/changelog/parse.rs` (headline grammar,
section segmentation, section-body event walk) into Lean.  Strings are
modelled as `List Char`; byte ranges of the Rust code become character
ranges (all marker strings involved are ASCII, where the two coincide).
The `pulldown_cmark` event stream consumed by the body parser is an
external library; the embedding is parameterised by an arbitrary
event-stream function so that theorems quantify over every possible
stream.
-/

namespace CargoSmartRelease

/-- Strings are modelled as lists of characters. -/
abbrev Str := List Char

/-- Unicode white space, as used by the `char::is_whitespace` predicate of the
source language (the White_Space property). -/
def isRustWhitespace (c : Char) : Bool :=
  let n := c.toNat
  (0x9 ≤ n && n ≤ 0xd) || n = 0x20 || n = 0x85 || n = 0xa0 || n = 0x1680 ||
  (0x2000 ≤ n && n ≤ 0x200a) || n = 0x2028 || n = 0x2029 || n = 0x202f ||
  n = 0x205f || n = 0x3000

/-- ASCII decimal digit, as in `char::is_ascii_digit`. -/
def isAsciiDigit (c : Char) : Bool := 48 ≤ c.toNat && c.toNat ≤ 57

/-- Lowercase hexadecimal digit: the exact character class
`'a'..='f' | '0'..='9'` of `parse_message_id`. -/
def isLowerHexDigit (c : Char) : Bool :=
  (97 ≤ c.toNat && c.toNat ≤ 102) || (48 ≤ c.toNat && c.toNat ≤ 57)

/-- ASCII lowercasing of one character, as in `eq_ignore_ascii_case`. -/
def asciiLower (c : Char) : Char :=
  if 65 ≤ c.toNat && c.toNat ≤ 90 then Char.ofNat (c.toNat + 32) else c

/-- Case-insensitive ASCII equality of two strings (`eq_ignore_ascii_case`). -/
def eqIgnoreAsciiCase (a b : Str) : Bool :=
  a.map asciiLower = b.map asciiLower

/-- `a.starts_with(p)`: `p` is a prefix of `a`. -/
def startsWith (p a : Str) : Bool :=
  a.take p.length = p

/-- `a.ends_with(s)`: `s` is a suffix of `a`. -/
def endsWith (s a : Str) : Bool :=
  a.drop (a.length - s.length) = s && s.length ≤ a.length

/-- `str::strip_prefix`: remove `p` from the front of `a` when present. -/
def stripPfx (p a : Str) : Option Str :=
  if startsWith p a then some (a.drop p.length) else none

/-- `str::trim`: drop Unicode whitespace from both ends. -/
def trimStr (s : Str) : Str :=
  (s.dropWhile isRustWhitespace).reverse.dropWhile isRustWhitespace |>.reverse

/-- `str::trim_end`: drop Unicode whitespace from the right end. -/
def trimEndStr (s : Str) : Str :=
  s.reverse.dropWhile isRustWhitespace |>.reverse

/-- `lines_with_terminator`: split into lines, each keeping its trailing
newline; a final fragment without a newline is kept as well. -/
def linesWithTerminator (s : Str) : List Str :=
  s.foldr
    (fun c acc =>
      if c = '\n' then ['\n'] :: acc
      else
        match acc with
        | [] => [[c]]
        | hd :: tl => (c :: hd) :: tl)
    []

/-- Value of one hexadecimal digit (`gix::hash` accepts both cases). -/
def hexDigitVal (c : Char) : Option Nat :=
  if 48 ≤ c.toNat && c.toNat ≤ 57 then some (c.toNat - 48)
  else if 97 ≤ c.toNat && c.toNat ≤ 102 then some (c.toNat - 97 + 10)
  else if 65 ≤ c.toNat && c.toNat ≤ 70 then some (c.toNat - 65 + 10)
  else none

/-- An object id is the sequence of 20 bytes of a SHA-1 hash. -/
abbrev ObjectId := List Nat

/-- Decode pairs of hex digits into bytes; `none` on a non-hex digit or an
odd number of digits. -/
def hexBytes : Str → Option (List Nat)
  | [] => some []
  | [_] => none
  | c1 :: c2 :: rest =>
    match hexDigitVal c1, hexDigitVal c2, hexBytes rest with
    | some h, some l, some bs => some ((h * 16 + l) :: bs)
    | _, _, _ => none

/-- `gix::hash::ObjectId::from_hex`: exactly 40 hex digits decode to the
20-byte id, anything else is an error. -/
def objectIdFromHex (s : Str) : Option ObjectId :=
  if s.length = 40 then hexBytes s else none

/-- Modelled from the spec: the literal marker strings of the wire format
(section 6 of the spec; the constants `Section::UNKNOWN_TAG_START`,
`Section::UNKNOWN_TAG_END` and `Conventional::REMOVED_HTML_PREFIX` live in
`src/changelog/section.rs`, which is not part of the sources; the
`csr` forms appear verbatim in the repository's tests). -/
def unknownTagStart : Str := "<csr-unknown>".toList

/-- Modelled from the spec: closing form of the unknown-content wrapper. -/
def unknownTagEnd : Str := "</csr-unknown>".toList

/-- Modelled from the spec: the removed-message/generated-message marker
opening, `<csr-id-`, as used by the repository's tests. -/
def removedHtmlMarker : Str := "<csr-id-".toList

/-- `parse_message_id`: strip the marker opening, locate the first character
that is not a lowercase hex digit, and decode the digits before it as an
object id.  `none` when the marker opening is absent, when the hex run
reaches the end of the string, or when the run does not hold exactly 40
digits. -/
def parseMessageId (html : Str) : Option ObjectId :=
  match stripPfx removedHtmlMarker html with
  | none => none
  | some rest =>
    match rest.findIdx? (fun c => !(isLowerHexDigit c)) with
    | none => none
    | some endOfHex => objectIdFromHex (rest.take endOfHex)

/-! ## Semantic versions (model of the external semver crate's parser and order) -/

/-- One dot-separated pre-release identifier: numeric (no leading zeros) or
alphanumeric. -/
inductive PreId where
  | num (n : Nat)
  | alnum (s : Str)
deriving DecidableEq

/-- A parsed semantic version, as produced by `semver::Version::parse`. -/
structure SemVer where
  major : Nat
  minor : Nat
  patch : Nat
  pre : List PreId
  build : List Str
deriving DecidableEq

/-- Character class of semver identifiers: `[0-9A-Za-z-]`. -/
def isIdentChar (c : Char) : Bool :=
  isAsciiDigit c || (97 ≤ c.toNat && c.toNat ≤ 122) ||
    (65 ≤ c.toNat && c.toNat ≤ 90) || c = '-'

/-- Numeric value of a digit string (most significant first). -/
def natOfDigits (s : Str) : Nat :=
  s.foldl (fun acc c => acc * 10 + (c.toNat - '0'.toNat)) 0

/-- A semver numeric component: nonempty, all digits, no leading zero. -/
def parseNumericPart (s : Str) : Option Nat :=
  if s ≠ [] && s.all isAsciiDigit && !(s.length > 1 && s.take 1 = ['0']) then
    some (natOfDigits s)
  else none

/-- Split a string at every occurrence of `sep`. -/
def splitOnChar (sep : Char) (s : Str) : List Str :=
  match s with
  | [] => [[]]
  | c :: rest =>
    let r := splitOnChar sep rest
    if c = sep then [] :: r
    else match r with
      | [] => [[c]]
      | hd :: tl => (c :: hd) :: tl

/-- Split at the first occurrence of `sep`: the part before it and, when the
separator occurs, the part after it. -/
def splitFirst (sep : Char) (s : Str) : Str × Option Str :=
  match s with
  | [] => ([], none)
  | c :: rest =>
    if c = sep then ([], some rest)
    else
      let (a, b) := splitFirst sep rest
      (c :: a, b)

/-- One pre-release identifier: nonempty over `[0-9A-Za-z-]`; all-digit
identifiers are numeric and reject leading zeros. -/
def parsePreId (s : Str) : Option PreId :=
  if s = [] || !s.all isIdentChar then none
  else if s.all isAsciiDigit then
    if s.length > 1 && s.take 1 = ['0'] then none else some (PreId.num (natOfDigits s))
  else some (PreId.alnum s)

/-- One build-metadata identifier: nonempty over `[0-9A-Za-z-]` (leading
zeros permitted). -/
def parseBuildId (s : Str) : Option Str :=
  if s = [] || !s.all isIdentChar then none else some s

/-- Map a partial parse over the dot-separated identifiers. -/
def parseDotted {α : Type} (f : Str → Option α) (s : Str) : Option (List α) :=
  (splitOnChar '.' s).mapM f

/-- `semver::Version::parse`: `major.minor.patch` with optional
`-prerelease` and `+build` parts. -/
def parseSemVer (s : Str) : Option SemVer := do
  let (beforeBuild, buildPart) := splitFirst '+' s
  let (core, prePart) := splitFirst '-' beforeBuild
  match splitOnChar '.' core with
  | [ma, mi, pa] =>
    let major ← parseNumericPart ma
    let minor ← parseNumericPart mi
    let patch ← parseNumericPart pa
    let pre ← match prePart with
      | none => some []
      | some p => parseDotted parsePreId p
    let build ← match buildPart with
      | none => some []
      | some b => parseDotted parseBuildId b
    some { major, minor, patch, pre, build }
  | _ => none

/-- Lexicographic order on lists; a strict prefix is smaller. -/
def cmpList {α : Type} (cmp : α → α → Ordering) : List α → List α → Ordering
  | [], [] => .eq
  | [], _ :: _ => .lt
  | _ :: _, [] => .gt
  | a :: as, b :: bs => (cmp a b).then (cmpList cmp as bs)

/-- Order of two characters by code point. -/
def cmpChar (a b : Char) : Ordering := compare a.toNat b.toNat

/-- Order of two pre-release identifiers: numeric before alphanumeric,
numeric by value, alphanumeric lexically by character. -/
def cmpPreId (a b : PreId) : Ordering :=
  match a, b with
  | .num x, .num y => compare x y
  | .num _, .alnum _ => .lt
  | .alnum _, .num _ => .gt
  | .alnum x, .alnum y => cmpList cmpChar x y

/-- Pre-release order: an empty pre-release ranks above any nonempty one. -/
def cmpPre (a b : List PreId) : Ordering :=
  match a, b with
  | [], [] => .eq
  | [], _ :: _ => .gt
  | _ :: _, [] => .lt
  | _, _ => cmpList cmpPreId a b

/-- `Ord` of `semver::Version`: major, minor, patch, pre-release, and
finally build metadata (lexically) as a tie break. -/
def cmpSemVer (a b : SemVer) : Ordering :=
  (compare a.major b.major).then <|
    (compare a.minor b.minor).then <|
      (compare a.patch b.patch).then <|
        (cmpPre a.pre b.pre).then <|
          cmpList (cmpList cmpChar) a.build b.build

/-! ## Dates (model of `jiff::civil::Date` at UTC) -/

/-- A calendar date; the source stores a `jiff::Zoned` at UTC midnight, whose
order coincides with the lexicographic order on (year, month, day). -/
structure CivDate where
  year : Nat
  month : Nat
  day : Nat
deriving DecidableEq

/-- Leap-year rule of the proleptic Gregorian calendar. -/
def isLeapYear (y : Nat) : Bool :=
  (y % 4 = 0 && y % 100 ≠ 0) || y % 400 = 0

/-- Days in one month. -/
def daysInMonth (y m : Nat) : Nat :=
  if m = 2 then (if isLeapYear y then 29 else 28)
  else if m = 4 || m = 6 || m = 9 || m = 11 then 30
  else 31

/-- `jiff::civil::Date::new` at UTC: validates the month and the day. -/
def mkDate (y m d : Nat) : Option CivDate :=
  if 1 ≤ m && m ≤ 12 && 1 ≤ d && d ≤ daysInMonth y m then
    some { year := y, month := m, day := d }
  else none

/-- Order of two dates (equals the order of the `jiff::Zoned` values at UTC
midnight). -/
def cmpDate (a b : CivDate) : Ordering :=
  (compare a.year b.year).then <|
    (compare a.month b.month).then (compare a.day b.day)

/-! ## The headline grammar (`Headline::try_from` via the winnow grammar) -/

/-- A parsed release headline. -/
structure Headline where
  level : Nat
  versionPfx : Str
  version : Option SemVer
  date : Option CivDate
deriving DecidableEq

/-- First alternative of the version branch: optional literal `v`, then a
maximal non-whitespace token that must parse as a semantic version. -/
def headlineVersionAlt1 (s : Str) : Option ((Str × Option SemVer) × Str) :=
  let (pfx, s1) := if startsWith ['v'] s then (['v'], s.drop 1) else ([], s)
  let tok := s1.takeWhile (fun c => !(isRustWhitespace c))
  let rest := s1.dropWhile (fun c => !(isRustWhitespace c))
  match parseSemVer tok with
  | some v => some ((pfx, some v), rest)
  | none => none

/-- Second alternative: the case-insensitive literal `unreleased`. -/
def headlineVersionAlt2 (s : Str) : Option ((Str × Option SemVer) × Str) :=
  if eqIgnoreAsciiCase (s.take 10) "unreleased".toList then
    some (([], none), s.drop 10)
  else none

/-- The `alt` of the two version branches. -/
def headlineVersion (s : Str) : Option ((Str × Option SemVer) × Str) :=
  (headlineVersionAlt1 s).orElse fun _ => headlineVersionAlt2 s

/-- Exactly `n` ASCII digits from the front. -/
def takeNDigits (n : Nat) (s : Str) : Option (Nat × Str) :=
  let ds := (s.take n).takeWhile isAsciiDigit
  if ds.length = n then some (natOfDigits ds, s.drop n) else none

/-- The optional date suffix: whitespace, then `(YYYY-MM-DD)` with a valid
calendar date; on any failure the whole suffix backtracks. -/
def headlineDate (s : Str) : Option CivDate × Str :=
  let s1 := s.dropWhile isRustWhitespace
  match
    (do
      let s2 ← if startsWith ['('] s1 then some (s1.drop 1) else none
      let (y, s3) ← takeNDigits 4 s2
      let s4 ← if startsWith ['-'] s3 then some (s3.drop 1) else none
      let (m, s5) ← takeNDigits 2 s4
      let s6 ← if startsWith ['-'] s5 then some (s5.drop 1) else none
      let (d, s7) ← takeNDigits 2 s6
      let s8 ← if startsWith [')'] s7 then some (s7.drop 1) else none
      let dt ← mkDate y m d
      some (dt, s8))
  with
  | some (dt, rest) => (some dt, rest)
  | none => (none, s)

/-- The whole headline grammar: hashes, whitespace, version alternative,
optional date, trailing whitespace, and the end of the line.  Any leftover
input fails the parse as a whole. -/
def parseHeadline (line : Str) : Option Headline :=
  let hashes := line.takeWhile (fun c => c = '#')
  let s1 := (line.drop hashes.length).dropWhile isRustWhitespace
  match headlineVersion s1 with
  | none => none
  | some ((pfx, version), s2) =>
    let (date, s3) := headlineDate s2
    if s3.dropWhile isRustWhitespace = [] then
      some { level := hashes.length, versionPfx := pfx, version, date }
    else none

/-! ## Markdown events

The body parser consumes the offset iterator of `pulldown_cmark`.  Events
carry the pieces the parser inspects; every other tag or event collapses
into the `other` constructors.  Each event is paired with the byte range it
covers in the body (here: a character range). -/

/-- Heading depth of a markdown heading event. -/
inductive HLevel where
  | h1 | h2 | h3 | h4 | h5 | h6
deriving DecidableEq

/-- Start tags distinguished by the body parser. -/
inductive MdTag where
  | paragraph
  | heading (level : HLevel)
  | htmlBlock
  | list
  | item
  | footnoteDef (text : Str)
  | codeBlockFenced (text : Str)
  | link (dest : Str)
  | image (dest : Str)
  | otherTag
deriving DecidableEq

/-- End tags distinguished by the body parser. -/
inductive MdTagEnd where
  | paragraph
  | heading (level : HLevel)
  | htmlBlock
  | list
  | item
  | otherTagEnd
deriving DecidableEq

/-- Markdown events distinguished by the body parser. -/
inductive Event where
  | Start (t : MdTag)
  | End (t : MdTagEnd)
  | Html (s : Str)
  | InlineHtml (s : Str)
  | Text (s : Str)
  | Code (s : Str)
  | FootnoteReference (s : Str)
  | otherEvent
deriving DecidableEq

/-- A character range over the body. -/
structure Rg where
  lo : Nat
  hi : Nat
deriving DecidableEq

/-- One event with its range. -/
abbrev ER := Event × Rg

/-- Slice of the original text covered by a range (`&markdown[range]`). -/
def sliceStr (s : Str) (r : Rg) : Str :=
  (s.take r.hi).drop r.lo

/-! ## The typed model (`ChangeLog`, `Section`, `Segment`) -/

/-- A release name: `Unreleased` or a semantic version. -/
inductive Version where
  | Unreleased
  | Semantic (v : SemVer)
deriving DecidableEq

/-- `changelog::Version`'s derived order (variant order, then semver). -/
def cmpVersion (a b : Version) : Ordering :=
  match a, b with
  | .Unreleased, .Unreleased => .eq
  | .Unreleased, .Semantic _ => .lt
  | .Semantic _, .Unreleased => .gt
  | .Semantic x, .Semantic y => cmpSemVer x y

/-- A message inside a conventional segment. -/
inductive Message where
  | Generated (id : ObjectId) (title : Str) (body : Option Str)
  | User (markdown : Str)
deriving DecidableEq

/-- One conventional-commit group. -/
structure Conventional where
  kind : Str
  isBreaking : Bool
  removed : List ObjectId
  messages : List Message
deriving DecidableEq

/-- A segment of a release section.  The parser only ever produces the
`Parsed` placeholder state for the three generated report blocks, so they
carry no payload here. -/
inductive Segment where
  | User (markdown : Str)
  | Clippy
  | Statistics
  | Details
  | Conventional (c : Conventional)
deriving DecidableEq

/-- A section of the changelog. -/
inductive Section where
  | Verbatim (text : Str) (generated : Bool)
  | Release (name : Version) (versionPfx : Str) (date : Option CivDate)
      (removed : List ObjectId) (headingLevel : Nat)
      (segments : List Segment) (unknown : Str)
deriving DecidableEq

/-- The whole document. -/
structure ChangeLog where
  sections : List Section
deriving DecidableEq

/-- Whether a section is a release section. -/
def Section.isRelease : Section → Bool
  | .Release .. => true
  | .Verbatim .. => false

/-- The heading depth of a release section. -/
def Section.level? : Section → Option Nat
  | .Release _ _ _ _ lvl _ _ => some lvl
  | .Verbatim .. => none

/-- The segments of a release section. -/
def Section.segmentsOf : Section → List Segment
  | .Release _ _ _ _ _ segs _ => segs
  | .Verbatim .. => []

/-- The removed-message ids of a release section. -/
def Section.removedOf : Section → List ObjectId
  | .Release _ _ _ r _ _ _ => r
  | .Verbatim .. => []

/-- The release name of a section. -/
def Section.name? : Section → Option Version
  | .Release n _ _ _ _ _ _ => some n
  | .Verbatim .. => none

/-- The date of a release section. -/
def Section.dateOf : Section → Option CivDate
  | .Release _ _ d _ _ _ _ => d
  | .Verbatim .. => none

/-! ## Helpers of the section-body parser -/

/-- Modelled from the spec: the generated-report headings are the fixed
literal titles of section 6 of the spec (`ThanksClippy::TITLE`,
`CommitStatistics::TITLE`, `Details::TITLE` live outside the sources). -/
def clippyTitle : Str := "Thanks Clippy".toList

/-- Modelled from the spec: the commit-statistics report title. -/
def statisticsTitle : Str := "Commit Statistics".toList

/-- Modelled from the spec: the details report title. -/
def detailsTitle : Str := "Details".toList

/-- Modelled from the spec: the breaking-change suffix of a conventional
heading (`Conventional::BREAKING_TITLE_ENCLOSED`, outside the sources). -/
def breakingTitleEnclosed : Str := "(BREAKING)".toList

/-- Modelled from the spec: `section::segment::conventional::as_headline`
(outside the sources) maps a commit kind to its display heading; the spec
fixes the `add` kind's heading as `Added` (testable property 8) and leaves
`refactor`, `other` and `style` without a display heading (the parser
matches those by their raw kind names). -/
def asHeadline (kind : Str) : Option Str :=
  if kind = "fix".toList then some "Bug Fixes".toList
  else if kind = "add".toList then some "Added".toList
  else if kind = "feat".toList then some "New Features".toList
  else if kind = "revert".toList then some "Reverted".toList
  else if kind = "remove".toList then some "Removed".toList
  else if kind = "change".toList then some "Changed".toList
  else if kind = "docs".toList then some "Documentation".toList
  else if kind = "perf".toList then some "Performance".toList
  else none

/-- The fixed kind list of `parse_conventional_to_next_section_title`. -/
def kindsList : List Str :=
  ["fix".toList, "add".toList, "feat".toList, "revert".toList,
   "remove".toList, "change".toList, "docs".toList, "perf".toList,
   "refactor".toList, "other".toList, "style".toList]

/-- One probe of the kind lookup: the common-length prefixes of the title
and the kind's headline (or raw kind name) agree up to ASCII case. -/
def kindMatches (title kind : Str) : Bool :=
  let headlineStr := (asHeadline kind).getD kind
  let commonLen := min headlineStr.length title.length
  eqIgnoreAsciiCase (title.take commonLen) (headlineStr.take commonLen)

/-- The kind lookup of `parse_conventional_to_next_section_title`; `none`
models the `expect` panic branch. -/
def kindLookup (title : Str) : Option Str :=
  kindsList.find? (kindMatches title)

/-- The dispatch guard of `Section::from_headline_and_body` for conventional
headings: a case-sensitive prefix test of the heading's first text token
against the display headlines (raw names for refactor/other/style). -/
def isConventionalTitle (title : Str) : Bool :=
  startsWith ((asHeadline "feat".toList).getD []) title ||
  startsWith ((asHeadline "add".toList).getD []) title ||
  startsWith ((asHeadline "revert".toList).getD []) title ||
  startsWith ((asHeadline "remove".toList).getD []) title ||
  startsWith ((asHeadline "change".toList).getD []) title ||
  startsWith ((asHeadline "docs".toList).getD []) title ||
  startsWith ((asHeadline "perf".toList).getD []) title ||
  startsWith "refactor".toList title ||
  startsWith "other".toList title ||
  startsWith "style".toList title ||
  startsWith ((asHeadline "fix".toList).getD []) title

/-- `update_unknown_range`: open a range, or extend the open range's end
(never its start). -/
def updateUnknownRange (target : Option Rg) (source : Rg) : Option Rg :=
  match target with
  | some t => some { t with hi := if source.hi > t.hi then source.hi else t.hi }
  | none => some source

/-- `record_unknown_range`: flush an accumulated range as a `User` segment
holding the exact slice of the original body. -/
def recordUnknownRange (out : List Segment) (r : Option Rg) (markdown : Str) :
    List Segment :=
  match r with
  | some r => out ++ [Segment.User (sliceStr markdown r)]
  | none => out

/-- `track_unknown_event`: append the textual payload of an event to the
`unknown` accumulator (non-textual events leave it unchanged). -/
def trackUnknownEvent (e : Event) (unknown : Str) : Str :=
  match e with
  | .Html t | .InlineHtml t | .Code t | .Text t | .FootnoteReference t => unknown ++ t
  | .Start (.footnoteDef t) | .Start (.codeBlockFenced t) => unknown ++ t
  | .Start (.link d) | .Start (.image d) => unknown ++ d
  | _ => unknown

/-- `if !removed.contains(&id) { removed.push(id) }`. -/
def addRemovedId (l : List ObjectId) (id : ObjectId) : List ObjectId :=
  if id ∈ l then l else l ++ [id]

/-- Does this event close the unknown-content wrapper? -/
def isUnknownEnd (e : Event) : Bool :=
  match e with
  | .Html t | .InlineHtml t => startsWith unknownTagEnd t
  | _ => false

/-- The sub-scan of the unknown-content wrapper: consume events into the
`unknown` accumulator until (and including) the closing wrapper marker. -/
def consumeUnknownBlock : List ER → Str → Str × List ER
  | [], u => (u, [])
  | (e, _) :: rest, u =>
    if isUnknownEnd e then (u, rest)
    else consumeUnknownBlock rest (trackUnknownEvent e u)

/-- The heading-interior sub-scan: consume events until (and including) the
first heading end; in user-authored consideration mode every consumed
event's range (the heading end included) extends the unknown range. -/
def headingTail (consider : Bool) : List ER → Option Rg → Option Rg × List ER
  | [], ur => (ur, [])
  | (e, r) :: rest, ur =>
    let ur' := if consider then updateUnknownRange ur r else ur
    match e with
    | .End (.heading _) => (ur', rest)
    | _ => headingTail consider rest ur'

/-- `skip_to_next_section_title`: discard events, stopping just before a
heading start of the given depth (which stays in the stream). -/
def skipToNextSectionTitle (lvl : HLevel) : List ER → List ER
  | [] => []
  | (e, r) :: rest =>
    match e with
    | .Start (.heading l) =>
      if l = lvl then (e, r) :: rest else skipToNextSectionTitle lvl rest
    | _ => skipToNextSectionTitle lvl rest

/-- `consume_item_events`: consume events to the end of the current list
item (depth-counted so nested items stay inside), returning the ranges of
all consumed events except the final item end. -/
def consumeItemEvents (depth : Nat) : List ER → List Rg × List ER
  | [] => ([], [])
  | (e, r) :: rest =>
    match e with
    | .Start .item =>
      let p := consumeItemEvents (depth + 1) rest
      (r :: p.1, p.2)
    | .End .item =>
      if depth = 1 then ([], rest)
      else
        let p := consumeItemEvents (depth - 1) rest
        (r :: p.1, p.2)
    | _ =>
      let p := consumeItemEvents depth rest
      (r :: p.1, p.2)

/-- Strip at most three leading spaces from one body line (the writer's
base indentation). -/
def stripIndentLine (l : Str) : Str :=
  l.drop (min (l.takeWhile (fun c => c = ' ')).length 3)

/-- The title of a generated message: the first line of the item remainder,
trimmed. -/
def generatedTitle (titleAndBody : Str) : Str :=
  trimStr (((linesWithTerminator titleAndBody).head?).getD [])

/-- The body of a generated message: the remaining lines, each stripped of
the base indentation, concatenated; `none` when there are none. -/
def generatedBody (titleAndBody : Str) : Option Str :=
  let rest := (linesWithTerminator titleAndBody).tail
  match rest with
  | [] => none
  | _ => some ((rest.map stripIndentLine).foldl (· ++ ·) [])

/-- `make_user_message_and_consume_item`: the whole item's markdown, with
trailing whitespace trimmed, becomes a `User` message; the item's events
are consumed. -/
def makeUserMessage (markdown : Str) (conv : Conventional) (range : Rg)
    (events : List ER) : Conventional × List ER :=
  let p := consumeItemEvents 1 events
  ({ conv with
      messages := conv.messages ++ [Message.User (trimEndStr (sliceStr markdown range))] },
    p.2)

/-- `parse_id_fallback_to_user_message`: a valid id marker turns the item
remainder into one `Generated` message (first line the title, later lines
the body with the base indentation stripped); an invalid marker falls back
to a `User` message of the whole item. -/
def parseIdFallback (markdown : Str) (conv : Conventional) (itemRange : Rg)
    (tag : Str) (events : List ER) : Conventional × List ER :=
  match parseMessageId tag with
  | some id =>
    let p := consumeItemEvents 1 events
    match p.1.head? with
    | none => (conv, p.2)
    | some first =>
      let last := (p.1.getLast?).getD first
      let titleAndBody := trimStr (sliceStr markdown ⟨first.lo, last.hi⟩)
      ({ conv with
          messages := conv.messages ++
            [Message.Generated id (generatedTitle titleAndBody)
              (generatedBody titleAndBody)] },
        p.2)
  | none => makeUserMessage markdown conv itemRange events

theorem consumeItemEvents_rest_le (d : Nat) (l : List ER) :
    (consumeItemEvents d l).2.length ≤ l.length := by
  induction d, l using consumeItemEvents.induct <;>
    simp_all [consumeItemEvents] <;> omega

theorem makeUserMessage_rest_le (markdown : Str) (conv : Conventional) (r : Rg)
    (l : List ER) : (makeUserMessage markdown conv r l).2.length ≤ l.length := by
  simpa [makeUserMessage] using consumeItemEvents_rest_le 1 l

theorem parseIdFallback_rest_le (markdown : Str) (conv : Conventional) (r : Rg)
    (tag : Str) (l : List ER) :
    (parseIdFallback markdown conv r tag l).2.length ≤ l.length := by
  rw [parseIdFallback]
  split
  · dsimp only
    split
    · exact consumeItemEvents_rest_le 1 l
    · exact consumeItemEvents_rest_le 1 l
  · exact makeUserMessage_rest_le markdown conv r l

/-- The inner list loop of `parse_conventional_to_next_section_title`:
each top-level list item becomes one message, other events are tracked as
unknown, and the list end terminates the walk. -/
def listItemLoop (markdown : Str) : List ER → Conventional → Str → Conventional × Str × List ER
  | [], conv, u => (conv, u, [])
  | (e, itemRange) :: rest, conv, u =>
    match e with
    | .Start .item =>
      (match rest with
       | [] => (conv, u, [])
       | (e2, _) :: rest2 =>
         match e2 with
         | .Start .paragraph =>
           (match rest2 with
            | [] => (conv, u, [])
            | (e3, _) :: rest3 =>
              match e3 with
              | .Html tag | .InlineHtml tag =>
                let p := parseIdFallback markdown conv itemRange tag rest3
                listItemLoop markdown p.2 p.1 u
              | _ =>
                let p := makeUserMessage markdown conv itemRange rest3
                listItemLoop markdown p.2 p.1 u)
         | .Html tag | .InlineHtml tag =>
           let p := parseIdFallback markdown conv itemRange tag rest2
           listItemLoop markdown p.2 p.1 u
         | _ =>
           let p := makeUserMessage markdown conv itemRange rest2
           listItemLoop markdown p.2 p.1 u)
    | .End .list => (conv, u, rest)
    | _ => listItemLoop markdown rest conv (trackUnknownEvent e u)
termination_by l _ _ => l.length
decreasing_by
  all_goals
    simp only [List.length_cons]
    first
    | exact Nat.lt_of_le_of_lt (parseIdFallback_rest_le _ _ _ _ _) (by omega)
    | exact Nat.lt_of_le_of_lt (makeUserMessage_rest_le _ _ _ _) (by omega)
    | omega

theorem listItemLoop_rest_le (markdown : Str) (l : List ER) (conv : Conventional)
    (u : Str) : (listItemLoop markdown l conv u).2.2.length ≤ l.length := by
  induction l, conv, u using listItemLoop.induct markdown <;>
    rw [listItemLoop] <;>
    simp_all <;>
    first
    | exact Nat.le_succ_of_le (Nat.le_succ_of_le (Nat.le_succ_of_le
        (le_trans (by assumption) (parseIdFallback_rest_le _ _ _ _ _))))
    | exact Nat.le_succ_of_le (Nat.le_succ_of_le (Nat.le_succ_of_le
        (le_trans (by assumption) (makeUserMessage_rest_le _ _ _ _))))
    | exact Nat.le_succ_of_le (Nat.le_succ_of_le
        (le_trans (by assumption) (parseIdFallback_rest_le _ _ _ _ _)))
    | exact Nat.le_succ_of_le (Nat.le_succ_of_le
        (le_trans (by assumption) (makeUserMessage_rest_le _ _ _ _)))
    | omega

/-- The main loop of `parse_conventional_to_next_section_title`: collect
removed ids and list items into the conventional group until the next
heading of the starting depth (left in the stream). -/
def parseConvLoop (markdown : Str) (lvl : HLevel) : List ER → Conventional → Str → Conventional × Str × List ER
  | [], conv, u => (conv, u, [])
  | (e, r) :: rest, conv, u =>
    match e with
    | .Start (.heading l) =>
      if l = lvl then (conv, u, (e, r) :: rest)
      else parseConvLoop markdown lvl rest conv (trackUnknownEvent e u)
    | .Html tag | .InlineHtml tag =>
      (match parseMessageId tag with
       | some id =>
         parseConvLoop markdown lvl rest
           { conv with removed := addRemovedId conv.removed id } u
       | none => parseConvLoop markdown lvl rest conv (trackUnknownEvent e u))
    | .Start .list =>
      let p := listItemLoop markdown rest conv u
      parseConvLoop markdown lvl p.2.2 p.1 p.2.1
    | _ => parseConvLoop markdown lvl rest conv (trackUnknownEvent e u)
termination_by l _ _ => l.length
decreasing_by
  all_goals
    simp only [List.length_cons]
    first
    | exact Nat.lt_of_le_of_lt (listItemLoop_rest_le _ _ _ _) (by omega)
    | omega

theorem parseConvLoop_rest_le (markdown : Str) (lvl : HLevel) (l : List ER)
    (conv : Conventional) (u : Str) :
    (parseConvLoop markdown lvl l conv u).2.2.length ≤ l.length := by
  induction l, conv, u using parseConvLoop.induct markdown lvl <;>
    rw [parseConvLoop] <;>
    simp_all <;>
    first
    | exact Nat.le_succ_of_le (le_trans (by assumption) (listItemLoop_rest_le _ _ _ _))
    | omega

theorem consumeUnknownBlock_rest_le (l : List ER) (u : Str) :
    (consumeUnknownBlock l u).2.length ≤ l.length := by
  induction l, u using consumeUnknownBlock.induct <;>
    simp_all [consumeUnknownBlock] <;> omega

theorem headingTail_rest_le (consider : Bool) (l : List ER) (ur : Option Rg) :
    (headingTail consider l ur).2.length ≤ l.length := by
  induction l generalizing ur with
  | nil => simp [headingTail]
  | cons hd tl ih =>
    rcases hd with ⟨e, r⟩
    rcases e with t | t | s | s | s | s | s | _ <;>
      try exact Nat.le_succ_of_le (ih _)
    rcases t with _ | lv | _ | _ | _ | _ <;>
      first
      | exact Nat.le_succ _
      | exact Nat.le_succ_of_le (ih _)

theorem skipToNextSectionTitle_le (lvl : HLevel) (l : List ER) :
    (skipToNextSectionTitle lvl l).length ≤ l.length := by
  induction l using skipToNextSectionTitle.induct lvl <;>
    simp_all [skipToNextSectionTitle] <;> omega

/-- The running state of the section-body walk. -/
structure BodyState where
  segments : List Segment
  unknown : Str
  unknownRange : Option Rg
  removed : List ObjectId
deriving DecidableEq

/-- The event walk of `Section::from_headline_and_body`: wrapper-enclosed
unknown content, removed-message markers, recognized headings (generated
reports, conventional groups) and everything else accumulated into the
byte-range of unrecognized content. -/
def sectionLoop (md : Str) : List ER → BodyState → BodyState
  | [], st => st
  | (e, range) :: rest, st =>
    match e with
    | .Html t | .InlineHtml t =>
      if startsWith unknownTagStart t then
        let p := consumeUnknownBlock rest st.unknown
        sectionLoop md p.2
          { st with segments := recordUnknownRange st.segments st.unknownRange md,
                    unknownRange := none, unknown := p.1 }
      else if startsWith removedHtmlMarker t then
        sectionLoop md rest
          { st with removed :=
              match parseMessageId t with
              | some id => addRemovedId st.removed id
              | none => st.removed }
      else
        sectionLoop md rest
          { st with unknownRange := updateUnknownRange st.unknownRange range }
    | .Start .htmlBlock => sectionLoop md rest st
    | .End .htmlBlock => sectionLoop md rest st
    | .Start (.heading indent) =>
      (match rest with
       | [] =>
         { st with segments := recordUnknownRange st.segments st.unknownRange md,
                   unknownRange := none }
       | (e2, nextRange) :: rest2 =>
         match e2 with
         | .Text title =>
           if startsWith clippyTitle title then
             let ht := headingTail false rest2 none
             sectionLoop md (skipToNextSectionTitle indent ht.2)
               { st with
                   segments := recordUnknownRange st.segments st.unknownRange md
                     ++ [Segment.Clippy],
                   unknownRange := none }
           else if startsWith statisticsTitle title then
             let ht := headingTail false rest2 none
             sectionLoop md (skipToNextSectionTitle indent ht.2)
               { st with
                   segments := recordUnknownRange st.segments st.unknownRange md
                     ++ [Segment.Statistics],
                   unknownRange := none }
           else if startsWith detailsTitle title then
             let ht := headingTail false rest2 none
             sectionLoop md (skipToNextSectionTitle indent ht.2)
               { st with
                   segments := recordUnknownRange st.segments st.unknownRange md
                     ++ [Segment.Details],
                   unknownRange := none }
           else if isConventionalTitle title then
             let ht := headingTail false rest2 none
             let conv0 : Conventional :=
               { kind := (kindLookup title).getD [],
                 isBreaking := endsWith breakingTitleEnclosed title,
                 removed := [], messages := [] }
             let p := parseConvLoop md indent ht.2 conv0 st.unknown
             sectionLoop md p.2.2
               { st with
                   segments := recordUnknownRange st.segments st.unknownRange md
                     ++ [Segment.Conventional p.1],
                   unknownRange := none, unknown := p.2.1 }
           else
             let ht := headingTail true rest2
               (updateUnknownRange (updateUnknownRange none range) nextRange)
             sectionLoop md ht.2
               { st with segments := recordUnknownRange st.segments st.unknownRange md,
                         unknownRange := ht.1 }
         | _ =>
           let ht := headingTail true rest2
             (updateUnknownRange (updateUnknownRange none range) nextRange)
           sectionLoop md ht.2
             { st with segments := recordUnknownRange st.segments st.unknownRange md,
                       unknownRange := ht.1 })
    | _ =>
      sectionLoop md rest
        { st with unknownRange := updateUnknownRange st.unknownRange range }
termination_by l _ => l.length
decreasing_by
  all_goals
    simp only [List.length_cons]
    first
    | exact Nat.lt_of_le_of_lt (consumeUnknownBlock_rest_le _ _) (by omega)
    | exact Nat.lt_of_le_of_lt
        (le_trans (skipToNextSectionTitle_le _ _) (headingTail_rest_le _ _ _)) (by omega)
    | exact Nat.lt_of_le_of_lt
        (le_trans (parseConvLoop_rest_le _ _ _ _ _) (headingTail_rest_le _ _ _)) (by omega)
    | exact Nat.lt_of_le_of_lt (headingTail_rest_le _ _ _) (by omega)
    | omega

/-- `Section::from_headline_and_body`, parameterised by the markdown event
stream function standing for the external `pulldown_cmark` parser. -/
def fromHeadlineAndBody (md2e : Str → List ER) (h : Headline) (body : Str) : Section :=
  let st := sectionLoop body (md2e body)
    { segments := [], unknown := [], unknownRange := none, removed := [] }
  Section.Release
    (match h.version with
     | some v => Version.Semantic v
     | none => Version.Unreleased)
    h.versionPfx h.date st.removed h.level
    (recordUnknownRange st.segments st.unknownRange body) st.unknown

/-! ## Segmentation, sorting and `ChangeLog::from_markdown` -/

/-- The line-scanning state of the segmenter. -/
structure SegState where
  sections : List Section
  body : Str
  prevHeadline : Option Headline
  firstLevel : Option Nat

/-- One line of the segmenter's scan: a parsed headline closes the previous
section (a release when a headline was open, else a verbatim section when
text accumulated), forcing the closed headline's depth to the first
headline's depth; any other line extends the open body. -/
def segStep (md2e : Str → List ER) (st : SegState) (line : Str) : SegState :=
  match parseHeadline line with
  | some h =>
    let fl := st.firstLevel.getD h.level
    let sections :=
      match st.prevHeadline with
      | some ph => st.sections ++ [fromHeadlineAndBody md2e { ph with level := fl } st.body]
      | none =>
        if st.body ≠ [] then st.sections ++ [Section.Verbatim st.body false]
        else st.sections
    { sections := sections, body := [], prevHeadline := some h, firstLevel := some fl }
  | none => { st with body := st.body ++ line }

/-- The full segmentation pass of `ChangeLog::from_markdown`: scan all
lines, then flush the last open section (the final headline keeps its own
depth). -/
def segmentSections (md2e : Str → List ER) (input : Str) : List Section :=
  let st := (linesWithTerminator input).foldl (segStep md2e)
    { sections := [], body := [], prevHeadline := none, firstLevel := none }
  match st.prevHeadline with
  | some h => st.sections ++ [fromHeadlineAndBody md2e h st.body]
  | none => st.sections ++ [Section.Verbatim st.body false]

/-- The release comparator of `from_markdown`: unreleased first; semantic
versions by date descending, a missing date after any present date, and
both dates missing by version descending.  The source marks the
non-release case unreachable (only release sections are sorted); it is
mapped to `Ordering.eq`. -/
def releaseCmp (a b : Section) : Ordering :=
  match a, b with
  | .Release na _ da _ _ _ _, .Release nb _ db _ _ _ _ =>
    (match na, nb with
     | .Unreleased, .Unreleased => .eq
     | .Unreleased, _ => .lt
     | _, .Unreleased => .gt
     | .Semantic _, .Semantic _ =>
       match da, db with
       | some l, some r => cmpDate r l
       | some _, none => .lt
       | none, some _ => .gt
       | none, none => (cmpVersion na nb).swap)
  | _, _ => .eq

/-- Insert an element after every element it is not strictly below (the
placement a stable sort gives). -/
def insertSorted {α : Type} (cmp : α → α → Ordering) (x : α) : List α → List α
  | [] => [x]
  | y :: ys => if cmp x y = .lt then x :: y :: ys else y :: insertSorted cmp x ys

/-- Stable insertion sort, modelling the stable `sort_by` of the source. -/
def sortStable {α : Type} (cmp : α → α → Ordering) (l : List α) : List α :=
  l.foldr (insertSorted cmp) []

/-- `ChangeLog::from_markdown`: segment, pin a leading verbatim section,
sort the release sections, and append the remaining non-release sections
in their original relative order. -/
def fromMarkdown (md2e : Str → List ER) (input : Str) : ChangeLog :=
  let secs := segmentSections md2e input
  let pos : Nat :=
    match secs.head? with
    | some (Section.Verbatim _ _) => 1
    | _ => 0
  let nonRel := secs.filter (fun s => !(Section.isRelease s))
  let rel := secs.filter Section.isRelease
  { sections := nonRel.take pos ++ sortStable releaseCmp rel ++ nonRel.drop pos }

/-- The depth of the first line that parses as a headline. -/
def leadLevel (lines : List Str) : Option Nat :=
  (lines.filterMap (fun l => (parseHeadline l).map Headline.level)).head?

/-- The depth of the first headline of the document. -/
def firstHeadlineLevel (input : Str) : Option Nat :=
  leadLevel (linesWithTerminator input)

/-- A concrete document whose two headlines use different depths. -/
def mixedLevelsDoc : Str := "### Unreleased\nx\n#### v1.0.0\ny\n".toList

/-- The spec's sort example: releases dated 2021-07-01 and 2021-08-06 plus
an undated Unreleased section, listed out of order. -/
def sortExampleDoc : Str :=
  "## Unreleased\n\n## 1.0.0 (2021-07-01)\n\n## 1.1.0 (2021-08-06)\n".toList

/-- A concrete document with a non-headline preamble before the first
release headline. -/
def pinnedDoc : Str := "intro\n## Unreleased\n".toList

/-- A one-event stream: a text event covering the first five characters. -/
def oneTextEv : Str → List ER := fun _ => [(Event.Text "hello".toList, ⟨0, 5⟩)]

/-- A headline value for concrete section-body runs. -/
def plainHeadline : Headline :=
  { level := 2, versionPfx := [], version := none, date := none }

/-- A removed-message marker for the object id ending in 1. -/
def markerOne : Str :=
  "<csr-id-0000000000000000000000000000000000000001/>".toList

/-- A removed-message marker for the object id ending in 2. -/
def markerTwo : Str :=
  "<csr-id-0000000000000000000000000000000000000002/>".toList

/-- The 20-byte object id ending in 1. -/
def idOne : ObjectId := List.replicate 19 0 ++ [1]

/-- The 20-byte object id ending in 2. -/
def idTwo : ObjectId := List.replicate 19 0 ++ [2]

/-- An event stream: one conventional heading followed by duplicate
removed-message markers. -/
def dupEv : Str → List ER := fun _ =>
  [(Event.Start (MdTag.heading HLevel.h3), ⟨0, 0⟩),
   (Event.Text "New Features".toList, ⟨0, 0⟩),
   (Event.End (MdTagEnd.heading HLevel.h3), ⟨0, 0⟩),
   (Event.Html markerOne, ⟨0, 0⟩),
   (Event.Html markerOne, ⟨0, 0⟩),
   (Event.Html markerTwo, ⟨0, 0⟩)]

/-- The conventional segment the duplicate-marker stream parses to. -/
def dupConv : Conventional :=
  { kind := "feat".toList, isBreaking := false,
    removed := [idOne, idTwo], messages := [] }

/-- The item remainder of the nested-sub-bullet example: a title line and
two sub-bullets indented by three spaces. -/
def nestedMd : Str :=
  "Added the following methods:\n   - is_empty\n   - len\n".toList

/-- The events of the nested-sub-bullet item: two content events and the
closing item end. -/
def nestedEvents : List ER :=
  [(Event.Text [], ⟨0, 29⟩), (Event.Text [], ⟨29, 52⟩),
   (Event.End MdTagEnd.item, ⟨52, 52⟩)]

/-- An empty conventional segment to receive the generated message. -/
def nestedConv : Conventional :=
  { kind := "feat".toList, isBreaking := false, removed := [], messages := [] }

/-- A marker that starts like a removed-message marker but carries a
malformed id. -/
def badMarker : Str := "<csr-id-XYZ/>".toList

/-- A one-event stream holding only the malformed marker. -/
def badMarkerEv : Str → List ER := fun _ => [(Event.Html badMarker, ⟨0, 13⟩)]

/-- A marker whose 40-digit hex run reaches the end of the string: no
terminating character follows. -/
def noTermMarker : Str :=
  "<csr-id-0000000000000000000000000000000000000000".toList

/-- A one-event stream holding only the unterminated marker. -/
def noTermEv : Str → List ER := fun _ => [(Event.Html noTermMarker, ⟨0, 48⟩)]

/-- The body of a section holding one unrecognized heading. -/
def refactorBody : Str := "### Refactor\n".toList

/-- The event stream of `refactorBody`: one heading whose title is a
case variant of the conventional kind `refactor`. -/
def refactorEv : Str → List ER := fun _ =>
  [(Event.Start (MdTag.heading HLevel.h3), ⟨0, 13⟩),
   (Event.Text "Refactor".toList, ⟨4, 12⟩),
   (Event.End (MdTagEnd.heading HLevel.h3), ⟨0, 13⟩)]

/-- First-occurrence deduplication: keep each element's first occurrence,
in order. -/
def dedupFirst {α : Type} [DecidableEq α] : List α → List α
  | [] => []
  | x :: xs => x :: (dedupFirst xs).filter (fun y => y ≠ x)

/-- Every `User` segment of the list is an exact slice of `md`. -/
def SegsOK (md : Str) (segs : List Segment) : Prop :=
  ∀ seg ∈ segs, ∀ s, seg = Segment.User s → ∃ rg : Rg, s = sliceStr md rg

/-! ## Theorems -/

theorem takeWhile_eq_take_length {α : Type} (p : α → Bool) (l : List α) :
    l.take (l.takeWhile p).length = l.takeWhile p := by
  induction l with
  | nil => simp
  | cons c tl ih =>
    rw [List.takeWhile_cons]
    by_cases h : p c = true
    · simp [h, ih]
    · simp [h]

theorem takeWhile_length_le {α : Type} (p : α → Bool) (l : List α) :
    (l.takeWhile p).length ≤ l.length :=
  (List.takeWhile_prefix p).length_le

theorem findIdx_not_eq_takeWhile (p : Char → Bool) (l : Str) (i : Nat) :
    l.findIdx? (fun c => !(p c)) i =
      if (l.takeWhile p).length < l.length
      then some ((l.takeWhile p).length + i) else none := by
  induction l generalizing i with
  | nil => simp [List.findIdx?]
  | cons c tl ih =>
    rw [List.findIdx?_cons, List.takeWhile_cons]
    by_cases h : p c = true
    · rw [ih (i + 1)]
      by_cases h2 : (tl.takeWhile p).length < tl.length <;>
        simp [h, h2] <;> omega
    · simp [h]

theorem hexDigitVal_isSome_of_lower {c : Char} (h : isLowerHexDigit c = true) :
    (hexDigitVal c).isSome = true := by
  simp only [isLowerHexDigit, Bool.or_eq_true, Bool.and_eq_true,
    decide_eq_true_eq] at h
  rcases h with ⟨h1, h2⟩ | ⟨h1, h2⟩
  · have h3 : ¬(48 ≤ c.toNat ∧ c.toNat ≤ 57) := by omega
    simp [hexDigitVal, h1, h2, h3]
  · simp [hexDigitVal, h1, h2]

theorem hexBytes_isSome_of_lower (l : Str) (hmem : ∀ c ∈ l, isLowerHexDigit c = true)
    (heven : l.length % 2 = 0) : (hexBytes l).isSome = true := by
  induction l using hexBytes.induct with
  | case1 => simp [hexBytes]
  | case2 c => simp at heven
  | case3 c1 c2 rest v1 v2 bs hbs hv2 hv1 ih =>
    simp [hexBytes, hv1, hv2, hbs]
  | case4 c1 c2 rest hno ih =>
    exfalso
    have h1 := hexDigitVal_isSome_of_lower (hmem c1 (by simp))
    have h2 := hexDigitVal_isSome_of_lower (hmem c2 (by simp))
    rw [Option.isSome_iff_exists] at h1 h2
    obtain ⟨v1, hv1⟩ := h1
    obtain ⟨v2, hv2⟩ := h2
    have hr : (hexBytes rest).isSome = true := by
      refine ih (fun c hc => hmem c (by simp [hc])) ?_
      simp only [List.length_cons] at heven
      omega
    rw [Option.isSome_iff_exists] at hr
    obtain ⟨bs, hbs⟩ := hr
    exact hno v1 v2 bs hv1 hv2 hbs

/-- `parse_message_id` yields an id exactly when the marker text starts
with the removed-message marker opening, continues with a run of lowercase
hex digits of exactly the 40-character object-id length, and that run is
terminated by some further character of the string; a run that reaches the
end of the string, or one cut short (for instance by an uppercase hex
digit) so that fewer than 40 lowercase hex digits precede the terminator,
yields `none`. -/
theorem parseMessageId_characterization (html : Str) :
    (∃ id, parseMessageId html = some id) ↔
      (startsWith removedHtmlMarker html = true ∧
       ((html.drop removedHtmlMarker.length).takeWhile isLowerHexDigit).length = 40 ∧
       ((html.drop removedHtmlMarker.length).takeWhile isLowerHexDigit).length <
         (html.drop removedHtmlMarker.length).length) := by
  have hfind := findIdx_not_eq_takeWhile isLowerHexDigit
    (html.drop removedHtmlMarker.length) 0
  constructor
  · rintro ⟨id, h⟩
    rw [parseMessageId] at h
    by_cases hs : startsWith removedHtmlMarker html = true
    · rw [stripPfx, if_pos hs] at h
      dsimp only at h
      rw [hfind] at h
      by_cases hlt : ((html.drop removedHtmlMarker.length).takeWhile
          isLowerHexDigit).length < (html.drop removedHtmlMarker.length).length
      · rw [if_pos hlt] at h
        simp only [Nat.add_zero] at h
        rw [takeWhile_eq_take_length, objectIdFromHex] at h
        refine ⟨hs, ?_, hlt⟩
        by_cases hlen : ((html.drop removedHtmlMarker.length).takeWhile
            isLowerHexDigit).length = 40
        · exact hlen
        · rw [if_neg hlen] at h; exact absurd h (by simp)
      · rw [if_neg hlt] at h; exact absurd h (by simp)
    · rw [stripPfx, if_neg hs] at h; exact absurd h (by simp)
  · rintro ⟨hs, hlen, hlt⟩
    rw [parseMessageId, stripPfx, if_pos hs]
    dsimp only
    rw [hfind, if_pos hlt]
    simp only [Nat.add_zero]
    rw [takeWhile_eq_take_length, objectIdFromHex, if_pos hlen]
    have hsome : (hexBytes ((html.drop removedHtmlMarker.length).takeWhile
        isLowerHexDigit)).isSome = true := by
      refine hexBytes_isSome_of_lower _ (fun c hc => List.mem_takeWhile_imp hc) ?_
      rw [hlen]
    rw [Option.isSome_iff_exists] at hsome
    exact hsome

theorem segFold_level_inv (md2e : Str → List ER) (lines : List Str) (st : SegState)
    (h1 : ∀ s ∈ st.sections, Section.isRelease s = true → Section.level? s = st.firstLevel)
    (h2 : st.firstLevel = none →
      st.prevHeadline = none ∧ ∀ s ∈ st.sections, Section.isRelease s = false) :
    (∀ s ∈ (lines.foldl (segStep md2e) st).sections, Section.isRelease s = true →
        Section.level? s = (lines.foldl (segStep md2e) st).firstLevel)
    ∧ ((lines.foldl (segStep md2e) st).firstLevel =
        match st.firstLevel with
        | some fl => some fl
        | none => leadLevel lines)
    ∧ ((lines.foldl (segStep md2e) st).firstLevel = none →
        (lines.foldl (segStep md2e) st).prevHeadline = none ∧
        ∀ s ∈ (lines.foldl (segStep md2e) st).sections, Section.isRelease s = false) := by
  induction lines generalizing st with
  | nil =>
    refine ⟨h1, ?_, h2⟩
    cases hF : st.firstLevel <;> simp [leadLevel, hF]
  | cons line rest ih =>
    rw [List.foldl_cons]
    rcases hline : parseHeadline line with _ | h
    · have hstep : segStep md2e st line = { st with body := st.body ++ line } := by
        rw [segStep, hline]
      rw [hstep]
      have hlead : leadLevel (line :: rest) = leadLevel rest := by
        simp [leadLevel, hline]
      rcases ih { st with body := st.body ++ line } h1 h2 with ⟨c1, c2, c3⟩
      exact ⟨c1, by rw [hlead] at *; exact c2, c3⟩
    · have hstep : segStep md2e st line =
        { sections :=
            match st.prevHeadline with
            | some ph => st.sections ++
                [fromHeadlineAndBody md2e
                  { ph with level := st.firstLevel.getD h.level } st.body]
            | none =>
              if st.body ≠ [] then st.sections ++ [Section.Verbatim st.body false]
              else st.sections,
          body := [], prevHeadline := some h,
          firstLevel := some (st.firstLevel.getD h.level) } := by
        rw [segStep, hline]
      have h1' : ∀ s ∈ (segStep md2e st line).sections, Section.isRelease s = true →
          Section.level? s = (segStep md2e st line).firstLevel := by
        intro s hs hrel
        rw [hstep] at hs ⊢
        dsimp only at hs ⊢
        have hold : s ∈ st.sections → Section.level? s = some (st.firstLevel.getD h.level) := by
          intro hmem
          rcases hF : st.firstLevel with _ | fl
          · exact absurd hrel (by simp [(h2 hF).2 s hmem])
          · rw [h1 s hmem hrel, hF]
            rfl
        rcases hprev : st.prevHeadline with _ | ph
        · rw [hprev] at hs
          dsimp only at hs
          split at hs
          · rcases List.mem_append.1 hs with hmem | hmem
            · exact hold hmem
            · simp only [List.mem_singleton] at hmem
              rw [hmem] at hrel
              exact absurd hrel (by simp [Section.isRelease])
          · exact hold hs
        · rw [hprev] at hs
          dsimp only at hs
          rcases List.mem_append.1 hs with hmem | hmem
          · exact hold hmem
          · simp only [List.mem_singleton] at hmem
            rw [hmem]
            simp [fromHeadlineAndBody, Section.level?]
      have h2' : (segStep md2e st line).firstLevel = none →
          (segStep md2e st line).prevHeadline = none ∧
          ∀ s ∈ (segStep md2e st line).sections, Section.isRelease s = false := by
        rw [hstep]
        intro hcontra
        exact absurd hcontra (by simp)
      rcases ih (segStep md2e st line) h1' h2' with ⟨c1, c2, c3⟩
      refine ⟨c1, ?_, c3⟩
      rw [c2, hstep]
      have hlead : leadLevel (line :: rest) = some h.level := by
        simp [leadLevel, hline]
      rcases hF : st.firstLevel with _ | fl
      · simp [hlead]
      · rfl

theorem fromHeadlineAndBody_nil (md2e : Str → List ER) (h : Headline) (body : Str)
    (hnil : md2e body = []) :
    fromHeadlineAndBody md2e h body =
      Section.Release
        (match h.version with
         | some v => Version.Semantic v
         | none => Version.Unreleased)
        h.versionPfx h.date [] h.level [] [] := by
  simp [fromHeadlineAndBody, hnil, sectionLoop, recordUnknownRange]

/-- Claim C3 (corrected at a concrete input): in the document
`mixedLevelsDoc` the first headline has depth 3, yet the parse result holds
a release section of depth 4, so the heading depth of every release
section does not equal the first headline's depth. -/
theorem fromMarkdown_level_counterexample :
    firstHeadlineLevel mixedLevelsDoc = some 3 ∧
    ¬ (∀ s ∈ (fromMarkdown (fun _ => []) mixedLevelsDoc).sections,
        Section.isRelease s = true →
          Section.level? s = firstHeadlineLevel mixedLevelsDoc) :=
  ⟨by decide, by decide⟩

/-- Claim C3 (amended): every release section of the segmentation except
the final one (flushed at the end of input, which keeps its own headline's
depth) has its heading depth forced to the depth of the first headline of
the document. -/
theorem segmentation_levels_forced_to_first (md2e : Str → List ER) (input : Str)
    (s : Section) (hs : s ∈ (segmentSections md2e input).dropLast)
    (hrel : Section.isRelease s = true) :
    Section.level? s = firstHeadlineLevel input := by
  obtain ⟨c1, c2, -⟩ := segFold_level_inv md2e (linesWithTerminator input)
    { sections := [], body := [], prevHeadline := none, firstLevel := none }
    (by intro s hs; simp at hs) (by intro _; simp)
  rw [segmentSections] at hs
  have hdrop : ∀ (l : List Section) (a : Section), (l ++ [a]).dropLast = l := by
    intro l a
    simp
  set st := (linesWithTerminator input).foldl (segStep md2e)
    { sections := [], body := [], prevHeadline := none, firstLevel := none } with hst
  have hmem : s ∈ st.sections := by
    rcases hp : st.prevHeadline with _ | h
    · rw [hp] at hs
      dsimp only at hs
      rwa [hdrop] at hs
    · rw [hp] at hs
      dsimp only at hs
      rwa [hdrop] at hs
  rw [c1 s hmem hrel, c2]
  rfl

/-- Witness for the amended claim C3: the first (Unreleased) section of the
mixed-depths document sits before the last section and carries the first
headline's depth 3. -/
theorem segmentation_levels_forced_to_first_witness :
    (Section.Release Version.Unreleased [] none [] 3 [] [] ∈
        (segmentSections (fun _ => []) mixedLevelsDoc).dropLast ∧
      Section.isRelease (Section.Release Version.Unreleased [] none [] 3 [] []) = true) ∧
    Section.level? (Section.Release Version.Unreleased [] none [] 3 [] []) =
      firstHeadlineLevel mixedLevelsDoc :=
  ⟨⟨by
      rw [show (segmentSections (fun _ => []) mixedLevelsDoc).dropLast =
        [fromHeadlineAndBody (fun _ => [])
          { level := 3, versionPfx := [], version := none, date := none }
          ("x\n".toList)] from rfl,
        fromHeadlineAndBody_nil _ _ _ rfl]
      simp,
    by decide⟩,
    segmentation_levels_forced_to_first (fun _ => []) mixedLevelsDoc
      (Section.Release Version.Unreleased [] none [] 3 [] [])
      (by
        rw [show (segmentSections (fun _ => []) mixedLevelsDoc).dropLast =
          [fromHeadlineAndBody (fun _ => [])
            { level := 3, versionPfx := [], version := none, date := none }
            ("x\n".toList)] from rfl,
          fromHeadlineAndBody_nil _ _ _ rfl]
        simp)
      (by decide)⟩

instance : Batteries.OrientedCmp cmpChar :=
  inferInstanceAs (Batteries.OrientedCmp (compareOn Char.toNat))

instance : Batteries.TransCmp cmpChar :=
  inferInstanceAs (Batteries.TransCmp (compareOn Char.toNat))

instance cmpListOriented {α : Type} (cmp : α → α → Ordering)
    [Batteries.OrientedCmp cmp] : Batteries.OrientedCmp (cmpList cmp) where
  symm := by
    intro l1 l2
    induction l1 generalizing l2 with
    | nil => cases l2 <;> simp [cmpList, Ordering.swap]
    | cons a as ih =>
      cases l2 with
      | nil => simp [cmpList, Ordering.swap]
      | cons b bs =>
        simp [cmpList, Ordering.swap_then, ih, Batteries.OrientedCmp.symm a b]

/-- `OrientedCmp.symm` with the comparator passed positionally. -/
theorem orientedSymm {α : Type} (cmp : α → α → Ordering)
    [Batteries.OrientedCmp cmp] (x y : α) : (cmp x y).swap = cmp y x :=
  Batteries.OrientedCmp.symm x y

/-- `TransCmp.le_trans` with the comparator passed positionally. -/
theorem transLeTrans {α : Type} (cmp : α → α → Ordering)
    [Batteries.TransCmp cmp] {x y z : α} (h1 : cmp x y ≠ Ordering.gt)
    (h2 : cmp y z ≠ Ordering.gt) : cmp x z ≠ Ordering.gt :=
  Batteries.TransCmp.le_trans h1 h2

/-- `TransCmp.ge_trans` with the comparator passed positionally. -/
theorem transGeTrans {α : Type} (cmp : α → α → Ordering)
    [Batteries.TransCmp cmp] {x y z : α} (h1 : cmp x y ≠ Ordering.lt)
    (h2 : cmp y z ≠ Ordering.lt) : cmp x z ≠ Ordering.lt :=
  Batteries.TransCmp.ge_trans h1 h2

/-- `TransCmp.cmp_congr_right` with the comparator passed positionally. -/
theorem cmpCongrRight {α : Type} (cmp : α → α → Ordering)
    [Batteries.TransCmp cmp] {x y z : α} (hbc : cmp y z = Ordering.eq) :
    cmp x y = cmp x z :=
  Batteries.TransCmp.cmp_congr_right hbc

instance cmpListTrans {α : Type} (cmp : α → α → Ordering)
    [Batteries.TransCmp cmp] : Batteries.TransCmp (cmpList cmp) where
  le_trans := by
    intro l1 l2 l3 h1 h2
    induction l1 generalizing l2 l3 with
    | nil => cases l3 <;> simp [cmpList]
    | cons a as ih =>
      cases l2 with
      | nil => simp [cmpList] at h1
      | cons b bs =>
        cases l3 with
        | nil => simp [cmpList] at h2
        | cons c cs =>
          simp only [cmpList, ne_eq, Ordering.then_eq_gt, not_or, not_and] at h1 h2 ⊢
          rcases hab : cmp a b with _ | _ | _
          · rcases hbc : cmp b c with _ | _ | _
            · have hac : cmp a c = Ordering.lt := Batteries.TransCmp.lt_trans hab hbc
              simp [hac]
            · have hac : cmp a c = Ordering.lt :=
                (cmpCongrRight (cmp) hbc).symm.trans hab
              simp [hac]
            · exact absurd hbc h2.1
          · have hac : cmp a c = cmp b c := Batteries.TransCmp.cmp_congr_left hab
            rcases hbc : cmp b c with _ | _ | _
            · simp [hac, hbc]
            · rw [hbc] at hac
              refine ⟨by simp [hac], fun _ => ih (h1.2 hab) (h2.2 hbc)⟩
            · exact absurd hbc h2.1
          · exact absurd hab h1.1

instance : Batteries.OrientedCmp cmpPreId where
  symm := by
    intro a b
    rcases a with x | x <;> rcases b with y | y
    · exact orientedSymm (compare) x y
    · simp [cmpPreId, Ordering.swap]
    · simp [cmpPreId, Ordering.swap]
    · exact orientedSymm (cmpList cmpChar) x y

instance : Batteries.TransCmp cmpPreId where
  le_trans := by
    intro a b c h1 h2
    rcases a with x | x <;> rcases b with y | y <;> rcases c with z | z <;>
      simp_all [cmpPreId] <;>
      first
      | exact transLeTrans (compare) h1 h2
      | exact transLeTrans (cmpList cmpChar) h1 h2

instance : Batteries.OrientedCmp cmpPre where
  symm := by
    intro a b
    rcases a with _ | ⟨x, xs⟩ <;> rcases b with _ | ⟨y, ys⟩
    · simp [cmpPre, Ordering.swap]
    · simp [cmpPre, Ordering.swap]
    · simp [cmpPre, Ordering.swap]
    · exact orientedSymm (cmpList cmpPreId) (x :: xs) (y :: ys)

instance : Batteries.TransCmp cmpPre where
  le_trans := by
    intro a b c h1 h2
    rcases a with _ | ⟨x, xs⟩ <;> rcases b with _ | ⟨y, ys⟩ <;>
      rcases c with _ | ⟨z, zs⟩ <;> simp_all [cmpPre]
    exact transLeTrans (cmpList cmpPreId) h1 h2

/-- The pre-release component comparison, as a function of whole versions. -/
def cmpOnPre (a b : SemVer) : Ordering := cmpPre a.pre b.pre

/-- The build-metadata component comparison, as a function of whole
versions. -/
def cmpOnBuild (a b : SemVer) : Ordering :=
  cmpList (cmpList cmpChar) a.build b.build

instance : Batteries.OrientedCmp cmpOnPre where
  symm a b := orientedSymm (cmpPre) a.pre b.pre

instance : Batteries.TransCmp cmpOnPre where
  le_trans h1 h2 := transLeTrans (cmpPre) h1 h2

instance : Batteries.OrientedCmp cmpOnBuild where
  symm a b := orientedSymm (cmpList (cmpList cmpChar)) a.build b.build

instance : Batteries.TransCmp cmpOnBuild where
  le_trans h1 h2 := transLeTrans (cmpList (cmpList cmpChar)) h1 h2

instance : Batteries.OrientedCmp cmpSemVer :=
  inferInstanceAs (Batteries.OrientedCmp
    (compareLex (compareOn SemVer.major) (compareLex (compareOn SemVer.minor)
      (compareLex (compareOn SemVer.patch) (compareLex cmpOnPre cmpOnBuild)))))

instance : Batteries.TransCmp cmpSemVer :=
  inferInstanceAs (Batteries.TransCmp
    (compareLex (compareOn SemVer.major) (compareLex (compareOn SemVer.minor)
      (compareLex (compareOn SemVer.patch) (compareLex cmpOnPre cmpOnBuild)))))

instance : Batteries.OrientedCmp cmpDate :=
  inferInstanceAs (Batteries.OrientedCmp
    (compareLex (compareOn CivDate.year)
      (compareLex (compareOn CivDate.month) (compareOn CivDate.day))))

instance : Batteries.TransCmp cmpDate :=
  inferInstanceAs (Batteries.TransCmp
    (compareLex (compareOn CivDate.year)
      (compareLex (compareOn CivDate.month) (compareOn CivDate.day))))

instance : Batteries.OrientedCmp cmpVersion where
  symm := by
    intro a b
    rcases a with _ | x <;> rcases b with _ | y
    · simp [cmpVersion, Ordering.swap]
    · simp [cmpVersion, Ordering.swap]
    · simp [cmpVersion, Ordering.swap]
    · exact orientedSymm (cmpSemVer) x y

instance : Batteries.TransCmp cmpVersion where
  le_trans := by
    intro a b c h1 h2
    rcases a with _ | x <;> rcases b with _ | y <;> rcases c with _ | z <;>
      simp_all [cmpVersion]
    exact transLeTrans (cmpSemVer) h1 h2

theorem insertSorted_mem {α : Type} (cmp : α → α → Ordering) (x : α) (l : List α)
    (y : α) : y ∈ insertSorted cmp x l ↔ y = x ∨ y ∈ l := by
  induction l with
  | nil => simp [insertSorted]
  | cons a as ih =>
    rw [insertSorted]
    split
    · simp
    · simp [ih]
      tauto

theorem insertSorted_perm {α : Type} (cmp : α → α → Ordering) (x : α) (l : List α) :
    (insertSorted cmp x l).Perm (x :: l) := by
  induction l with
  | nil => simp [insertSorted]
  | cons a as ih =>
    rw [insertSorted]
    split
    · exact List.Perm.refl _
    · exact (List.Perm.cons a ih).trans (List.Perm.swap x a as)

theorem sortStable_perm {α : Type} (cmp : α → α → Ordering) (l : List α) :
    (sortStable cmp l).Perm l := by
  induction l with
  | nil => simp [sortStable]
  | cons x xs ih =>
    exact (insertSorted_perm cmp x (sortStable cmp xs)).trans (List.Perm.cons x ih)

theorem insertSorted_pairwise {α : Type} (cmp : α → α → Ordering) (P : α → Prop)
    (hsymm : ∀ a b, P a → P b → cmp a b = (cmp b a).swap)
    (htrans : ∀ a b c, P a → P b → P c →
      cmp a b ≠ .gt → cmp b c ≠ .gt → cmp a c ≠ .gt)
    (x : α) (hx : P x) (l : List α) (hl : ∀ z ∈ l, P z)
    (hp : l.Pairwise (fun a b => cmp a b ≠ .gt)) :
    (insertSorted cmp x l).Pairwise (fun a b => cmp a b ≠ .gt) := by
  induction l with
  | nil => simp [insertSorted]
  | cons a as ih =>
    rcases hp with _ | ⟨hpa, hpas⟩
    rw [insertSorted]
    split
    · rename_i hxa
      refine List.Pairwise.cons ?_ (List.Pairwise.cons hpa hpas)
      intro z hz
      rcases List.mem_cons.1 hz with rfl | hz'
      · simp [hxa]
      · exact htrans x a z hx (hl a (by simp)) (hl z (by simp [hz']))
          (by simp [hxa]) (hpa z hz')
    · rename_i hxa
      refine List.Pairwise.cons ?_ (ih (fun z hz => hl z (by simp [hz])) hpas)
      intro z hz
      rw [insertSorted_mem] at hz
      rcases hz with rfl | hz'
      · have hsw := hsymm a z (hl a (by simp)) hx
        rcases h' : cmp z a with _ | _ | _
        · exact absurd h' hxa
        · simp [hsw, h', Ordering.swap]
        · simp [hsw, h', Ordering.swap]
      · exact hpa z hz'

theorem sortStable_pairwise {α : Type} (cmp : α → α → Ordering) (P : α → Prop)
    (hsymm : ∀ a b, P a → P b → cmp a b = (cmp b a).swap)
    (htrans : ∀ a b c, P a → P b → P c →
      cmp a b ≠ .gt → cmp b c ≠ .gt → cmp a c ≠ .gt)
    (l : List α) (hl : ∀ z ∈ l, P z) :
    (sortStable cmp l).Pairwise (fun a b => cmp a b ≠ .gt) := by
  induction l with
  | nil => simp [sortStable]
  | cons x xs ih =>
    refine insertSorted_pairwise cmp P hsymm htrans x (hl x (by simp)) _ ?_
      (ih (fun z hz => hl z (by simp [hz])))
    intro z hz
    exact hl z (by simp [(sortStable_perm cmp xs).mem_iff.1 hz])

theorem releaseCmp_symm (a b : Section) (ha : Section.isRelease a = true)
    (hb : Section.isRelease b = true) : releaseCmp a b = (releaseCmp b a).swap := by
  rcases a with _ | ⟨na, pa, da, ra, la, sa, ua⟩
  · simp [Section.isRelease] at ha
  rcases b with _ | ⟨nb, pb, db, rb, lb, sb, ub⟩
  · simp [Section.isRelease] at hb
  rcases na with _ | x <;> rcases nb with _ | y
  · simp [releaseCmp, Ordering.swap]
  · simp [releaseCmp, Ordering.swap]
  · simp [releaseCmp, Ordering.swap]
  · rcases da with _ | dl <;> rcases db with _ | dr
    · simp only [releaseCmp]
      rw [← orientedSymm (cmpVersion)
        (Version.Semantic y) (Version.Semantic x), Ordering.swap_swap]
    · simp [releaseCmp, Ordering.swap]
    · simp [releaseCmp, Ordering.swap]
    · simp only [releaseCmp]
      exact (orientedSymm (cmpDate) dl dr).symm

theorem releaseCmp_le_trans (a b c : Section) (ha : Section.isRelease a = true)
    (hb : Section.isRelease b = true) (hc : Section.isRelease c = true)
    (h1 : releaseCmp a b ≠ .gt) (h2 : releaseCmp b c ≠ .gt) :
    releaseCmp a c ≠ .gt := by
  rcases a with _ | ⟨na, pa, da, ra, la, sa, ua⟩
  · simp [Section.isRelease] at ha
  rcases b with _ | ⟨nb, pb, db, rb, lb, sb, ub⟩
  · simp [Section.isRelease] at hb
  rcases c with _ | ⟨nc, pc, dc, rc, lc, sc, uc⟩
  · simp [Section.isRelease] at hc
  rcases na with _ | x <;> rcases nb with _ | y <;> rcases nc with _ | z <;>
    simp_all [releaseCmp]
  rcases da with _ | dl <;> rcases db with _ | dm <;> rcases dc with _ | dr <;>
    simp_all
  · have h1' : cmpVersion (Version.Semantic x) (Version.Semantic y) ≠ .lt := by
      rcases hv : cmpVersion (Version.Semantic x) (Version.Semantic y) with _ | _ | _ <;>
        simp_all [Ordering.swap]
    have h2' : cmpVersion (Version.Semantic y) (Version.Semantic z) ≠ .lt := by
      rcases hv : cmpVersion (Version.Semantic y) (Version.Semantic z) with _ | _ | _ <;>
        simp_all [Ordering.swap]
    have h3 := transGeTrans (cmpVersion) h1' h2'
    rcases hv : cmpVersion (Version.Semantic x) (Version.Semantic z) with _ | _ | _ <;>
      simp_all [Ordering.swap]
  · exact transLeTrans (cmpDate) h2 h1

/-- Claim C4: the order of `from_markdown`'s output.  For every document
and event stream: the release sections of the output are pairwise ordered
by the release comparator (unreleased first, date descending, missing date
last, then version descending); the non-release sections keep their
original relative order; the output is a permutation of the segmentation;
and a leading verbatim section stays pinned at position 0.  On the
concrete example, releases dated 2021-08-06 and 2021-07-01 plus an undated
Unreleased come out as Unreleased, 2021-08-06, 2021-07-01. -/
theorem fromMarkdown_section_order :
    (∀ (md2e : Str → List ER) (input : Str),
      ((fromMarkdown md2e input).sections.filter Section.isRelease).Pairwise
        (fun a b => releaseCmp a b ≠ .gt) ∧
      (fromMarkdown md2e input).sections.filter (fun s => !(Section.isRelease s)) =
        (segmentSections md2e input).filter (fun s => !(Section.isRelease s)) ∧
      ((fromMarkdown md2e input).sections).Perm (segmentSections md2e input) ∧
      (∀ t g, (segmentSections md2e input).head? = some (Section.Verbatim t g) →
        (fromMarkdown md2e input).sections.head? = some (Section.Verbatim t g))) ∧
    ((fromMarkdown (fun _ => []) sortExampleDoc).sections.map Section.name? =
       [some Version.Unreleased, some (Version.Semantic ⟨1, 1, 0, [], []⟩),
        some (Version.Semantic ⟨1, 0, 0, [], []⟩)] ∧
     (fromMarkdown (fun _ => []) sortExampleDoc).sections.map Section.dateOf =
       [none, some ⟨2021, 8, 6⟩, some ⟨2021, 7, 1⟩]) := by
  constructor
  · intro md2e input
    set nr := (segmentSections md2e input).filter (fun s => !(Section.isRelease s))
      with hnr
    set rl := (segmentSections md2e input).filter Section.isRelease with hrl
    set pos := (match (segmentSections md2e input).head? with
      | some (Section.Verbatim _ _) => 1
      | _ => 0 : Nat) with hposdef
    have hout : (fromMarkdown md2e input).sections =
        nr.take pos ++ sortStable releaseCmp rl ++ nr.drop pos := by
      rw [fromMarkdown]
    have hRelF : ∀ s ∈ rl, Section.isRelease s = true :=
      fun s hs => List.of_mem_filter hs
    have hNonF : ∀ s ∈ nr, Section.isRelease s = false := by
      intro s hs
      simpa using List.of_mem_filter hs
    have hSortedF : ∀ s ∈ sortStable releaseCmp rl, Section.isRelease s = true := by
      intro s hs
      exact hRelF s ((sortStable_perm _ _).mem_iff.1 hs)
    have e1 : (nr.take pos).filter Section.isRelease = [] :=
      List.filter_eq_nil_iff.2 (fun s hs =>
        by simp [hNonF s (List.take_subset _ _ hs)])
    have e2 : (nr.drop pos).filter Section.isRelease = [] :=
      List.filter_eq_nil_iff.2 (fun s hs =>
        by simp [hNonF s (List.drop_subset _ _ hs)])
    have e3 : (sortStable releaseCmp rl).filter Section.isRelease =
        sortStable releaseCmp rl := List.filter_eq_self.2 hSortedF
    have e4 : (nr.take pos).filter (fun s => !(Section.isRelease s)) = nr.take pos :=
      List.filter_eq_self.2 (fun s hs =>
        by simp [hNonF s (List.take_subset _ _ hs)])
    have e5 : (nr.drop pos).filter (fun s => !(Section.isRelease s)) = nr.drop pos :=
      List.filter_eq_self.2 (fun s hs =>
        by simp [hNonF s (List.drop_subset _ _ hs)])
    have e6 : (sortStable releaseCmp rl).filter (fun s => !(Section.isRelease s)) = [] :=
      List.filter_eq_nil_iff.2 (fun s hs => by simp [hSortedF s hs])
    refine ⟨?_, ?_, ?_, ?_⟩
    · rw [hout, List.filter_append, List.filter_append, e1, e2, e3]
      simp only [List.nil_append, List.append_nil]
      exact sortStable_pairwise releaseCmp (fun s => Section.isRelease s = true)
        releaseCmp_symm releaseCmp_le_trans _ hRelF
    · rw [hout, List.filter_append, List.filter_append, e4, e5, e6]
      simp only [List.append_nil, List.take_append_drop]
    · rw [hout, List.append_assoc]
      refine List.Perm.trans (List.Perm.append_left _
        (List.Perm.append_right _ (sortStable_perm _ _))) ?_
      refine List.Perm.trans List.perm_append_comm ?_
      rw [List.append_assoc]
      refine List.Perm.trans (List.Perm.append_left _ List.perm_append_comm) ?_
      rw [List.take_append_drop]
      exact List.filter_append_perm _ _
    · intro t g hhead
      rcases hsec : segmentSections md2e input with _ | ⟨s, ss⟩
      · rw [hsec] at hhead
        simp at hhead
      · rw [hsec] at hhead
        simp only [List.head?_cons, Option.some_inj] at hhead
        subst hhead
        have hpos1 : pos = 1 := by
          rw [hposdef, hsec]
          rfl
        rw [hout, hpos1, hnr, hsec]
        simp [Section.isRelease, List.filter_cons]
  · exact ⟨by decide, by decide⟩

/-- Witness for claim C4: a document with a non-headline preamble keeps its
verbatim preamble pinned at position 0 of the parse result. -/
theorem fromMarkdown_section_order_witness :
    (segmentSections (fun _ => []) pinnedDoc).head? =
      some (Section.Verbatim "intro\n".toList false) ∧
    (fromMarkdown (fun _ => []) pinnedDoc).sections.head? =
      some (Section.Verbatim "intro\n".toList false) :=
  ⟨by decide, (fromMarkdown_section_order.1 (fun _ => []) pinnedDoc).2.2.2
    "intro\n".toList false (by decide)⟩

theorem segsOK_record (md : Str) (segs : List Segment) (r : Option Rg)
    (h : SegsOK md segs) : SegsOK md (recordUnknownRange segs r md) := by
  rcases r with _ | r
  · exact h
  · intro seg hseg s hs
    rcases List.mem_append.1 hseg with hm | hm
    · exact h seg hm s hs
    · simp only [List.mem_singleton] at hm
      rw [hm] at hs
      exact ⟨r, by injection hs with h'; rw [h']⟩

theorem segsOK_append_nonuser (md : Str) (segs : List Segment) (x : Segment)
    (h : SegsOK md segs) (hx : ∀ s, x ≠ Segment.User s) :
    SegsOK md (segs ++ [x]) := by
  intro seg hseg s hs
  rcases List.mem_append.1 hseg with hm | hm
  · exact h seg hm s hs
  · simp only [List.mem_singleton] at hm
    rw [hm] at hs
    exact absurd hs (hx s)

theorem sectionLoop_segsOK (md : Str) (l : List ER) (st : BodyState) :
    SegsOK md st.segments → SegsOK md (sectionLoop md l st).segments := by
  induction l, st using sectionLoop.induct md with
  | case1 st => intro h; rwa [sectionLoop]
  | case2 range rest st t hg p ih =>
    intro h
    rw [sectionLoop]
    simp only [hg, if_pos]
    exact ih (segsOK_record md st.segments st.unknownRange h)
  | case3 range rest st t hg1 hg2 ih =>
    intro h
    rw [sectionLoop]
    simp only [hg1, hg2, if_pos, if_neg]
    exact ih h
  | case4 range rest st t hg1 hg2 ih =>
    intro h
    rw [sectionLoop]
    simp only [hg1, hg2, if_neg]
    exact ih h
  | case5 range rest st t hg p ih =>
    intro h
    rw [sectionLoop]
    simp only [hg, if_pos]
    exact ih (segsOK_record md st.segments st.unknownRange h)
  | case6 range rest st t hg1 hg2 ih =>
    intro h
    rw [sectionLoop]
    simp only [hg1, hg2, if_pos, if_neg]
    exact ih h
  | case7 range rest st t hg1 hg2 ih =>
    intro h
    rw [sectionLoop]
    simp only [hg1, hg2, if_neg]
    exact ih h
  | case8 range rest st ih =>
    intro h
    rw [sectionLoop]
    exact ih h
  | case9 range rest st ih =>
    intro h
    rw [sectionLoop]
    exact ih h
  | case10 range st indent =>
    intro h
    rw [sectionLoop]
    exact segsOK_record md st.segments st.unknownRange h
  | case11 range st indent r rest title hg ht ih =>
    intro h
    rw [sectionLoop]
    simp only [hg, if_pos]
    exact ih (segsOK_append_nonuser md _ _
      (segsOK_record md st.segments st.unknownRange h) (by intro s hs; cases hs))
  | case12 range st indent r rest title hg1 hg2 ht ih =>
    intro h
    rw [sectionLoop]
    simp only [hg1, hg2, if_pos, if_neg]
    exact ih (segsOK_append_nonuser md _ _
      (segsOK_record md st.segments st.unknownRange h) (by intro s hs; cases hs))
  | case13 range st indent r rest title hg1 hg2 hg3 ht ih =>
    intro h
    rw [sectionLoop]
    simp only [hg1, hg2, hg3, if_pos, if_neg]
    exact ih (segsOK_append_nonuser md _ _
      (segsOK_record md st.segments st.unknownRange h) (by intro s hs; cases hs))
  | case14 range st indent r rest title hg1 hg2 hg3 hg4 ht conv0 p ih =>
    intro h
    rw [sectionLoop]
    simp only [hg1, hg2, hg3, hg4, if_pos, if_neg]
    exact ih (segsOK_append_nonuser md _ _
      (segsOK_record md st.segments st.unknownRange h) (by intro s hs; cases hs))
  | case15 range st indent r rest title hg1 hg2 hg3 hg4 ht ih =>
    intro h
    rw [sectionLoop]
    simp only [hg1, hg2, hg3, hg4, if_neg]
    exact ih (segsOK_record md st.segments st.unknownRange h)
  | case16 range st indent e2 r rest ht hne ih =>
    intro h
    rw [sectionLoop]
    · exact ih (segsOK_record md st.segments st.unknownRange h)
    all_goals assumption
  | case17 e range rest st hn1 hn2 hn3 hn4 hn5 ih =>
    intro h
    rw [sectionLoop]
    · exact ih h
    all_goals assumption

/-- Claim C2: flushing an accumulated unknown range emits a `User` segment
whose markdown is the exact substring of the original body covered by that
range, and consequently every `User` segment of a parsed section is an
exact slice of the section's body: the parser only slices the original
source, never rebuilding text from events. -/
theorem userSegments_are_slices :
    (∀ (segs : List Segment) (r : Rg) (markdown : Str),
      recordUnknownRange segs (some r) markdown =
        segs ++ [Segment.User (sliceStr markdown r)]) ∧
    (∀ (md2e : Str → List ER) (h : Headline) (body : Str),
      ∀ seg ∈ Section.segmentsOf (fromHeadlineAndBody md2e h body),
        ∀ s, seg = Segment.User s → ∃ rg : Rg, s = sliceStr body rg) := by
  constructor
  · intro segs r markdown
    rfl
  · intro md2e h body seg hseg s hs
    have h0 : SegsOK body ([] : List Segment) := by
      intro seg hseg
      simp at hseg
    have hloop := sectionLoop_segsOK body (md2e body)
      { segments := [], unknown := [], unknownRange := none, removed := [] } h0
    have hrec := segsOK_record body _
      (sectionLoop body (md2e body)
        { segments := [], unknown := [], unknownRange := none, removed := [] }).unknownRange
      hloop
    exact hrec seg hseg s hs

/-- Witness for claim C2: a single text event leaves one unknown range that
is flushed as a `User` segment holding the exact slice of the body. -/
theorem userSegments_are_slices_witness :
    Segment.User ("hello".toList) ∈
      Section.segmentsOf (fromHeadlineAndBody oneTextEv plainHeadline ("hello\n".toList)) ∧
    ∃ rg : Rg, "hello".toList = sliceStr ("hello\n".toList) rg := by
  have hmem : Section.segmentsOf
      (fromHeadlineAndBody oneTextEv plainHeadline ("hello\n".toList)) =
      [Segment.User ("hello".toList)] := by
    have h1 : sectionLoop ("hello\n".toList) (oneTextEv ("hello\n".toList))
        { segments := [], unknown := [], unknownRange := none, removed := [] } =
        { segments := [], unknown := [],
          unknownRange := some ⟨0, 5⟩, removed := [] } := by
      rw [oneTextEv]
      rw [sectionLoop]
      · rw [sectionLoop]
        rfl
      all_goals intros
      all_goals simp_all
    rw [fromHeadlineAndBody, h1]
    rfl
  refine ⟨by rw [hmem]; simp, ?_⟩
  exact userSegments_are_slices.2 oneTextEv plainHeadline ("hello\n".toList)
    (Segment.User ("hello".toList)) (by rw [hmem]; simp) ("hello".toList) rfl

theorem kindMatches_of_startsWith (title k hl : Str)
    (hhl : (asHeadline k).getD k = hl) (h : startsWith hl title = true) :
    kindMatches title k = true := by
  have htake : title.take hl.length = hl := by
    simpa [startsWith] using h
  have hlen : hl.length ≤ title.length := by
    have := congrArg List.length htake
    simp only [List.length_take] at this
    omega
  simp only [kindMatches, hhl]
  rw [min_eq_left hlen, htake, List.take_length]
  simp [eqIgnoreAsciiCase]

/-- Claim C7: every heading title that the conventional dispatch guard of
`from_headline_and_body` accepts is also matched by the fixed-kind lookup
of `parse_conventional_to_next_section_title`, so the panic behind that
lookup is unreachable: the two match sites agree. -/
theorem conventional_kind_lookup_total (title : Str)
    (h : isConventionalTitle title = true) : (kindLookup title).isSome = true := by
  rw [kindLookup, List.find?_isSome]
  rw [isConventionalTitle] at h
  simp only [Bool.or_eq_true] at h
  rcases h with ((((((((((h | h) | h) | h) | h) | h) | h) | h) | h) | h) | h)
  · exact ⟨"feat".toList, by decide,
      kindMatches_of_startsWith title _ _ (by decide) h⟩
  · exact ⟨"add".toList, by decide,
      kindMatches_of_startsWith title _ _ (by decide) h⟩
  · exact ⟨"revert".toList, by decide,
      kindMatches_of_startsWith title _ _ (by decide) h⟩
  · exact ⟨"remove".toList, by decide,
      kindMatches_of_startsWith title _ _ (by decide) h⟩
  · exact ⟨"change".toList, by decide,
      kindMatches_of_startsWith title _ _ (by decide) h⟩
  · exact ⟨"docs".toList, by decide,
      kindMatches_of_startsWith title _ _ (by decide) h⟩
  · exact ⟨"perf".toList, by decide,
      kindMatches_of_startsWith title _ _ (by decide) h⟩
  · exact ⟨"refactor".toList, by decide,
      kindMatches_of_startsWith title _ _ (by decide) h⟩
  · exact ⟨"other".toList, by decide,
      kindMatches_of_startsWith title _ _ (by decide) h⟩
  · exact ⟨"style".toList, by decide,
      kindMatches_of_startsWith title _ _ (by decide) h⟩
  · exact ⟨"fix".toList, by decide,
      kindMatches_of_startsWith title _ _ (by decide) h⟩

/-- Witness for claim C7: the title of a generated conventional heading
passes the dispatch guard and the kind lookup finds a kind for it. -/
theorem conventional_kind_lookup_total_witness :
    isConventionalTitle ("New Features".toList) = true ∧
    (kindLookup ("New Features".toList)).isSome = true :=
  ⟨by decide, conventional_kind_lookup_total ("New Features".toList) (by decide)⟩

theorem parseIdFallback_meta (markdown : Str) (conv : Conventional) (r : Rg)
    (tag : Str) (l : List ER) :
    (parseIdFallback markdown conv r tag l).1.kind = conv.kind ∧
    (parseIdFallback markdown conv r tag l).1.isBreaking = conv.isBreaking := by
  rw [parseIdFallback]
  split
  · dsimp only
    split
    · exact ⟨rfl, rfl⟩
    · exact ⟨rfl, rfl⟩
  · exact ⟨rfl, rfl⟩

theorem listItemLoop_meta (markdown : Str) (l : List ER) (conv : Conventional)
    (u : Str) :
    (listItemLoop markdown l conv u).1.kind = conv.kind ∧
    (listItemLoop markdown l conv u).1.isBreaking = conv.isBreaking := by
  induction l, conv, u using listItemLoop.induct markdown with
  | case1 conv u => rw [listItemLoop]; exact ⟨rfl, rfl⟩
  | case2 itemRange conv u => rw [listItemLoop]; exact ⟨rfl, rfl⟩
  | case3 itemRange conv u r => rw [listItemLoop]; exact ⟨rfl, rfl⟩
  | case4 itemRange conv u r r1 rest t p ih =>
    rw [listItemLoop]
    have hm := parseIdFallback_meta markdown conv itemRange t rest
    exact ⟨by rw [ih.1, hm.1], by rw [ih.2, hm.2]⟩
  | case5 itemRange conv u r r1 rest t p ih =>
    rw [listItemLoop]
    have hm := parseIdFallback_meta markdown conv itemRange t rest
    exact ⟨by rw [ih.1, hm.1], by rw [ih.2, hm.2]⟩
  | case6 itemRange conv u r e r1 rest p hn1 hn2 ih =>
    rw [listItemLoop]
    · exact ⟨by rw [ih.1]; rfl, by rw [ih.2]; rfl⟩
    all_goals assumption
  | case7 itemRange conv u r rest tag p ih =>
    rw [listItemLoop]
    have hm := parseIdFallback_meta markdown conv itemRange tag rest
    exact ⟨by rw [ih.1, hm.1], by rw [ih.2, hm.2]⟩
  | case8 itemRange conv u r rest tag p ih =>
    rw [listItemLoop]
    have hm := parseIdFallback_meta markdown conv itemRange tag rest
    exact ⟨by rw [ih.1, hm.1], by rw [ih.2, hm.2]⟩
  | case9 itemRange conv u e r rest p hn1 hn2 hn3 ih =>
    rw [listItemLoop]
    · exact ⟨by rw [ih.1]; rfl, by rw [ih.2]; rfl⟩
    all_goals assumption
  | case10 itemRange rest conv u => rw [listItemLoop]; exact ⟨rfl, rfl⟩
  | case11 e itemRange rest conv u hn1 hn2 ih =>
    rw [listItemLoop]
    · exact ih
    all_goals assumption

theorem parseConvLoop_meta (markdown : Str) (lvl : HLevel) (l : List ER)
    (conv : Conventional) (u : Str) :
    (parseConvLoop markdown lvl l conv u).1.kind = conv.kind ∧
    (parseConvLoop markdown lvl l conv u).1.isBreaking = conv.isBreaking := by
  induction l, conv, u using parseConvLoop.induct markdown lvl with
  | case1 conv u => rw [parseConvLoop]; exact ⟨rfl, rfl⟩
  | case2 itemRange rest conv u =>
    rw [parseConvLoop]
    simp only [if_pos rfl]
    exact ⟨rfl, rfl⟩
  | case3 itemRange rest conv u l hne ih =>
    rw [parseConvLoop]
    rw [if_neg hne]
    exact ih
  | case4 itemRange rest conv u tag id hid ih =>
    rw [parseConvLoop]
    simp only [hid]
    exact ih
  | case5 itemRange rest conv u tag hid ih =>
    rw [parseConvLoop]
    simp only [hid]
    exact ih
  | case6 itemRange rest conv u tag id hid ih =>
    rw [parseConvLoop]
    simp only [hid]
    exact ih
  | case7 itemRange rest conv u tag hid ih =>
    rw [parseConvLoop]
    simp only [hid]
    exact ih
  | case8 itemRange rest conv u p ih =>
    rw [parseConvLoop]
    have hm := listItemLoop_meta markdown rest conv u
    exact ⟨by rw [ih.1, hm.1], by rw [ih.2, hm.2]⟩
  | case9 e itemRange rest conv u hn1 hn2 hn3 hn4 ih =>
    rw [parseConvLoop]
    · exact ih
    all_goals assumption

theorem recordUnknownRange_append (segs : List Segment) (r : Option Rg) (md : Str) :
    ∃ t, recordUnknownRange segs r md = segs ++ t := by
  rcases r with _ | r
  · exact ⟨[], by simp [recordUnknownRange]⟩
  · exact ⟨[Segment.User (sliceStr md r)], rfl⟩

theorem sectionLoop_segments_mono (md : Str) (l : List ER) (st : BodyState) :
    ∃ d, (sectionLoop md l st).segments = st.segments ++ d := by
  induction l, st using sectionLoop.induct md with
  | case1 st => exact ⟨[], by rw [sectionLoop]; simp⟩
  | case2 range rest st t hg p ih =>
    obtain ⟨d, hd⟩ := ih
    obtain ⟨t0, ht0⟩ := recordUnknownRange_append st.segments st.unknownRange md
    refine ⟨t0 ++ d, ?_⟩
    rw [sectionLoop]
    simp only [hg, if_true]
    rw [hd]
    simp only at ht0 ⊢
    rw [ht0, List.append_assoc]
  | case3 range rest st t hg1 hg2 ih =>
    obtain ⟨d, hd⟩ := ih
    refine ⟨d, ?_⟩
    rw [sectionLoop]
    simp only [hg1, hg2, Bool.false_eq_true, if_false, if_true]
    rw [hd]
  | case4 range rest st t hg1 hg2 ih =>
    obtain ⟨d, hd⟩ := ih
    refine ⟨d, ?_⟩
    rw [sectionLoop]
    simp only [hg1, hg2, Bool.false_eq_true, if_false]
    rw [hd]
  | case5 range rest st t hg p ih =>
    obtain ⟨d, hd⟩ := ih
    obtain ⟨t0, ht0⟩ := recordUnknownRange_append st.segments st.unknownRange md
    refine ⟨t0 ++ d, ?_⟩
    rw [sectionLoop]
    simp only [hg, if_true]
    rw [hd]
    simp only at ht0 ⊢
    rw [ht0, List.append_assoc]
  | case6 range rest st t hg1 hg2 ih =>
    obtain ⟨d, hd⟩ := ih
    refine ⟨d, ?_⟩
    rw [sectionLoop]
    simp only [hg1, hg2, Bool.false_eq_true, if_false, if_true]
    rw [hd]
  | case7 range rest st t hg1 hg2 ih =>
    obtain ⟨d, hd⟩ := ih
    refine ⟨d, ?_⟩
    rw [sectionLoop]
    simp only [hg1, hg2, Bool.false_eq_true, if_false]
    rw [hd]
  | case8 range rest st ih =>
    obtain ⟨d, hd⟩ := ih
    refine ⟨d, ?_⟩
    rw [sectionLoop]
    rw [hd]
  | case9 range rest st ih =>
    obtain ⟨d, hd⟩ := ih
    refine ⟨d, ?_⟩
    rw [sectionLoop]
    rw [hd]
  | case10 range st indent =>
    obtain ⟨t0, ht0⟩ := recordUnknownRange_append st.segments st.unknownRange md
    refine ⟨t0, ?_⟩
    rw [sectionLoop]
    exact ht0
  | case11 range st indent r rest title hg ht ih =>
    obtain ⟨d, hd⟩ := ih
    obtain ⟨t0, ht0⟩ := recordUnknownRange_append st.segments st.unknownRange md
    refine ⟨t0 ++ [Segment.Clippy] ++ d, ?_⟩
    rw [sectionLoop]
    simp only [hg, if_true]
    rw [hd]
    simp only at ht0 ⊢
    rw [ht0]
    simp [List.append_assoc]
  | case12 range st indent r rest title hg1 hg2 ht ih =>
    obtain ⟨d, hd⟩ := ih
    obtain ⟨t0, ht0⟩ := recordUnknownRange_append st.segments st.unknownRange md
    refine ⟨t0 ++ [Segment.Statistics] ++ d, ?_⟩
    rw [sectionLoop]
    simp only [hg1, hg2, Bool.false_eq_true, if_false, if_true]
    rw [hd]
    simp only at ht0 ⊢
    rw [ht0]
    simp [List.append_assoc]
  | case13 range st indent r rest title hg1 hg2 hg3 ht ih =>
    obtain ⟨d, hd⟩ := ih
    obtain ⟨t0, ht0⟩ := recordUnknownRange_append st.segments st.unknownRange md
    refine ⟨t0 ++ [Segment.Details] ++ d, ?_⟩
    rw [sectionLoop]
    simp only [hg1, hg2, hg3, Bool.false_eq_true, if_false, if_true]
    rw [hd]
    simp only at ht0 ⊢
    rw [ht0]
    simp [List.append_assoc]
  | case14 range st indent r rest title hg1 hg2 hg3 hg4 ht conv0 p ih =>
    obtain ⟨d, hd⟩ := ih
    obtain ⟨t0, ht0⟩ := recordUnknownRange_append st.segments st.unknownRange md
    refine ⟨t0 ++ [Segment.Conventional p.1] ++ d, ?_⟩
    rw [sectionLoop]
    simp only [hg1, hg2, hg3, hg4, Bool.false_eq_true, if_false, if_true]
    rw [hd]
    simp only at ht0 ⊢
    rw [ht0]
    simp [List.append_assoc]
  | case15 range st indent r rest title hg1 hg2 hg3 hg4 ht ih =>
    obtain ⟨d, hd⟩ := ih
    obtain ⟨t0, ht0⟩ := recordUnknownRange_append st.segments st.unknownRange md
    refine ⟨t0 ++ d, ?_⟩
    rw [sectionLoop]
    simp only [hg1, hg2, hg3, hg4, Bool.false_eq_true, if_false]
    rw [hd]
    simp only at ht0 ⊢
    rw [ht0, List.append_assoc]
  | case16 range st indent e2 r rest ht hne ih =>
    obtain ⟨d, hd⟩ := ih
    obtain ⟨t0, ht0⟩ := recordUnknownRange_append st.segments st.unknownRange md
    refine ⟨t0 ++ d, ?_⟩
    rw [sectionLoop]
    · rw [hd]
      simp only at ht0 ⊢
      rw [ht0, List.append_assoc]
    all_goals assumption
  | case17 e range rest st hn1 hn2 hn3 hn4 hn5 ih =>
    obtain ⟨d, hd⟩ := ih
    refine ⟨d, ?_⟩
    rw [sectionLoop]
    · rw [hd]
    all_goals assumption

/-- Claim C6 (corrected at a concrete input): the heading title `Refactor`
is a case-insensitive prefix match of the conventional type `refactor`,
yet the dispatch (a case-sensitive `starts_with`) treats the heading as
user-authored: the parsed section holds one `User` segment and no
`Conventional` segment. -/
theorem conventional_dispatch_case_counterexample :
    eqIgnoreAsciiCase ("Refactor".toList.take 8) ("refactor".toList) = true ∧
    Section.segmentsOf (fromHeadlineAndBody refactorEv plainHeadline refactorBody) =
      [Segment.User ("### Refactor\n".toList)] := by
  constructor
  · decide
  · simp +decide [fromHeadlineAndBody, refactorEv, sectionLoop, headingTail,
      updateUnknownRange, recordUnknownRange, Section.segmentsOf, sliceStr,
      refactorBody]

/-- Claim C6 (amended): a heading whose first text token is a
case-sensitive prefix match of one of the fixed conventional headline
titles (and not of a generated-report title) starts a conventional group:
the body parser emits a `Conventional` segment right after the flushed
unknown range, with the kind found by the fixed-kind lookup and the
breaking flag read off the title's breaking marker. -/
theorem conventional_dispatch_emits_segment (md : Str) (indent : HLevel)
    (range r : Rg) (title : Str) (rest : List ER) (st : BodyState)
    (hc1 : startsWith clippyTitle title = false)
    (hc2 : startsWith statisticsTitle title = false)
    (hc3 : startsWith detailsTitle title = false)
    (hconv : isConventionalTitle title = true) :
    ∃ (conv : Conventional) (d : List Segment),
      (sectionLoop md ((Event.Start (MdTag.heading indent), range) ::
          (Event.Text title, r) :: rest) st).segments =
        recordUnknownRange st.segments st.unknownRange md ++
          Segment.Conventional conv :: d ∧
      conv.kind = (kindLookup title).getD [] ∧
      conv.isBreaking = endsWith breakingTitleEnclosed title := by
  rw [sectionLoop]
  simp only [hc1, hc2, hc3, hconv, Bool.false_eq_true, if_false, if_true]
  obtain ⟨d, hd⟩ := sectionLoop_segments_mono md
    (parseConvLoop md indent (headingTail false rest none).2
      { kind := (kindLookup title).getD [],
        isBreaking := endsWith breakingTitleEnclosed title,
        removed := [], messages := [] } st.unknown).2.2
    { segments := recordUnknownRange st.segments st.unknownRange md ++
        [Segment.Conventional (parseConvLoop md indent (headingTail false rest none).2
          { kind := (kindLookup title).getD [],
            isBreaking := endsWith breakingTitleEnclosed title,
            removed := [], messages := [] } st.unknown).1],
      unknown := (parseConvLoop md indent (headingTail false rest none).2
        { kind := (kindLookup title).getD [],
          isBreaking := endsWith breakingTitleEnclosed title,
          removed := [], messages := [] } st.unknown).2.1,
      unknownRange := none, removed := st.removed }
  have hmeta := parseConvLoop_meta md indent (headingTail false rest none).2
    { kind := (kindLookup title).getD [],
      isBreaking := endsWith breakingTitleEnclosed title,
      removed := [], messages := [] } st.unknown
  refine ⟨_, d, ?_, hmeta.1, hmeta.2⟩
  rw [hd]
  simp

/-- Witness for the amended claim C6: the heading title `New Features`
passes the case-sensitive dispatch and the loop emits a conventional
segment. -/
theorem conventional_dispatch_emits_segment_witness :
    (startsWith clippyTitle ("New Features".toList) = false ∧
     startsWith statisticsTitle ("New Features".toList) = false ∧
     startsWith detailsTitle ("New Features".toList) = false ∧
     isConventionalTitle ("New Features".toList) = true) ∧
    ∃ (conv : Conventional) (d : List Segment),
      (sectionLoop ("x".toList)
          ((Event.Start (MdTag.heading HLevel.h3), ⟨0, 0⟩) ::
            (Event.Text ("New Features".toList), ⟨0, 0⟩) :: [])
          { segments := [], unknown := [], unknownRange := none, removed := [] }).segments =
        recordUnknownRange [] none ("x".toList) ++
          Segment.Conventional conv :: d ∧
      conv.kind = (kindLookup ("New Features".toList)).getD [] ∧
      conv.isBreaking = endsWith breakingTitleEnclosed ("New Features".toList) :=
  ⟨⟨by decide, by decide, by decide, by decide⟩,
    conventional_dispatch_emits_segment ("x".toList) HLevel.h3 ⟨0, 0⟩ ⟨0, 0⟩
      ("New Features".toList) [] _ (by decide) (by decide) (by decide) (by decide)⟩

theorem addRemovedId_nodup (l : List ObjectId) (id : ObjectId) (h : l.Nodup) :
    (addRemovedId l id).Nodup := by
  rw [addRemovedId]
  split
  · exact h
  · rename_i hmem
    simpa [List.nodup_append] using ⟨h, hmem⟩

theorem foldl_addRemovedId (ids : List ObjectId) (acc : List ObjectId) :
    ids.foldl addRemovedId acc = acc ++ (dedupFirst ids).filter (fun y => y ∉ acc) := by
  induction ids generalizing acc with
  | nil => simp [dedupFirst]
  | cons id rest ih =>
    rw [List.foldl_cons, dedupFirst, addRemovedId]
    split
    · rename_i hmem
      rw [ih acc]
      congr 1
      rw [List.filter_cons]
      have hdec : (decide (id ∉ acc)) = false := by simp [hmem]
      rw [hdec]
      simp only [Bool.false_eq_true, if_false]
      rw [List.filter_filter]
      refine List.filter_congr ?_
      intro x hx
      by_cases hxa : x ∈ acc
      · simp [hxa]
      · have hne : x ≠ id := by rintro rfl; exact hxa hmem
        simp [hxa, hne]
    · rename_i hmem
      rw [ih (acc ++ [id])]
      rw [List.filter_cons]
      have hdec : (decide (id ∉ acc)) = true := by simp [hmem]
      rw [hdec]
      simp only [if_true]
      rw [List.append_assoc]
      congr 1
      rw [List.singleton_append]
      congr 1
      rw [List.filter_filter]
      refine List.filter_congr ?_
      intro x hx
      by_cases hxa : x ∈ acc <;> by_cases hxi : x = id <;>
        simp [hxa, hxi]

theorem parseIdFallback_removed (markdown : Str) (conv : Conventional) (r : Rg)
    (tag : Str) (l : List ER) :
    (parseIdFallback markdown conv r tag l).1.removed = conv.removed := by
  rw [parseIdFallback]
  split
  · dsimp only
    split
    · rfl
    · rfl
  · rfl

theorem listItemLoop_removed (markdown : Str) (l : List ER) (conv : Conventional)
    (u : Str) : (listItemLoop markdown l conv u).1.removed = conv.removed := by
  induction l, conv, u using listItemLoop.induct markdown with
  | case1 conv u => rw [listItemLoop]
  | case2 itemRange conv u => rw [listItemLoop]
  | case3 itemRange conv u r => rw [listItemLoop]
  | case4 itemRange conv u r r1 rest t p ih =>
    rw [listItemLoop]
    rw [ih, parseIdFallback_removed]
  | case5 itemRange conv u r r1 rest t p ih =>
    rw [listItemLoop]
    rw [ih, parseIdFallback_removed]
  | case6 itemRange conv u r e r1 rest p hn1 hn2 ih =>
    rw [listItemLoop]
    · rw [ih]
      rfl
    all_goals assumption
  | case7 itemRange conv u r rest tag p ih =>
    rw [listItemLoop]
    rw [ih, parseIdFallback_removed]
  | case8 itemRange conv u r rest tag p ih =>
    rw [listItemLoop]
    rw [ih, parseIdFallback_removed]
  | case9 itemRange conv u e r rest p hn1 hn2 hn3 ih =>
    rw [listItemLoop]
    · rw [ih]
      rfl
    all_goals assumption
  | case10 itemRange rest conv u => rw [listItemLoop]
  | case11 e itemRange rest conv u hn1 hn2 ih =>
    rw [listItemLoop]
    · rw [ih]
    all_goals assumption

theorem parseConvLoop_removed_nodup (markdown : Str) (lvl : HLevel) (l : List ER)
    (conv : Conventional) (u : Str) :
    conv.removed.Nodup → (parseConvLoop markdown lvl l conv u).1.removed.Nodup := by
  induction l, conv, u using parseConvLoop.induct markdown lvl with
  | case1 conv u => intro h; rw [parseConvLoop]; exact h
  | case2 itemRange rest conv u =>
    intro h
    rw [parseConvLoop]
    simp only [if_pos rfl]
    exact h
  | case3 itemRange rest conv u l hne ih =>
    intro h
    rw [parseConvLoop, if_neg hne]
    exact ih h
  | case4 itemRange rest conv u tag id hid ih =>
    intro h
    rw [parseConvLoop]
    simp only [hid]
    exact ih (addRemovedId_nodup conv.removed id h)
  | case5 itemRange rest conv u tag hid ih =>
    intro h
    rw [parseConvLoop]
    simp only [hid]
    exact ih h
  | case6 itemRange rest conv u tag id hid ih =>
    intro h
    rw [parseConvLoop]
    simp only [hid]
    exact ih (addRemovedId_nodup conv.removed id h)
  | case7 itemRange rest conv u tag hid ih =>
    intro h
    rw [parseConvLoop]
    simp only [hid]
    exact ih h
  | case8 itemRange rest conv u p ih =>
    intro h
    rw [parseConvLoop]
    refine ih ?_
    rw [listItemLoop_removed]
    exact h
  | case9 e itemRange rest conv u hn1 hn2 hn3 hn4 ih =>
    intro h
    rw [parseConvLoop]
    · exact ih h
    all_goals assumption

/-- Every conventional segment of the list has a duplicate-free removed
list. -/
def ConvOK (segs : List Segment) : Prop :=
  ∀ seg ∈ segs, ∀ c, seg = Segment.Conventional c → c.removed.Nodup

theorem convOK_record (md : Str) (segs : List Segment) (r : Option Rg)
    (h : ConvOK segs) : ConvOK (recordUnknownRange segs r md) := by
  rcases r with _ | r
  · exact h
  · intro seg hseg c hc
    rcases List.mem_append.1 hseg with hm | hm
    · exact h seg hm c hc
    · simp only [List.mem_singleton] at hm
      rw [hm] at hc
      cases hc

theorem convOK_append (segs : List Segment) (x : Segment) (h : ConvOK segs)
    (hx : ∀ c, x = Segment.Conventional c → c.removed.Nodup) :
    ConvOK (segs ++ [x]) := by
  intro seg hseg c hc
  rcases List.mem_append.1 hseg with hm | hm
  · exact h seg hm c hc
  · simp only [List.mem_singleton] at hm
    rw [hm] at hc
    exact hx c hc

theorem sectionLoop_removed_inv (md : Str) (l : List ER) (st : BodyState) :
    st.removed.Nodup → ConvOK st.segments →
    (sectionLoop md l st).removed.Nodup ∧ ConvOK (sectionLoop md l st).segments := by
  induction l, st using sectionLoop.induct md with
  | case1 st => intro h1 h2; rw [sectionLoop]; exact ⟨h1, h2⟩
  | case2 range rest st t hg p ih =>
    intro h1 h2
    rw [sectionLoop]
    simp only [hg, if_true]
    exact ih h1 (convOK_record md st.segments st.unknownRange h2)
  | case3 range rest st t hg1 hg2 ih =>
    intro h1 h2
    rw [sectionLoop]
    simp only [hg1, hg2, Bool.false_eq_true, if_false, if_true]
    refine ih ?_ h2
    rcases hp : parseMessageId t with _ | id
    · simpa using h1
    · simpa using addRemovedId_nodup st.removed id h1
  | case4 range rest st t hg1 hg2 ih =>
    intro h1 h2
    rw [sectionLoop]
    simp only [hg1, hg2, Bool.false_eq_true, if_false]
    exact ih h1 h2
  | case5 range rest st t hg p ih =>
    intro h1 h2
    rw [sectionLoop]
    simp only [hg, if_true]
    exact ih h1 (convOK_record md st.segments st.unknownRange h2)
  | case6 range rest st t hg1 hg2 ih =>
    intro h1 h2
    rw [sectionLoop]
    simp only [hg1, hg2, Bool.false_eq_true, if_false, if_true]
    refine ih ?_ h2
    rcases hp : parseMessageId t with _ | id
    · simpa using h1
    · simpa using addRemovedId_nodup st.removed id h1
  | case7 range rest st t hg1 hg2 ih =>
    intro h1 h2
    rw [sectionLoop]
    simp only [hg1, hg2, Bool.false_eq_true, if_false]
    exact ih h1 h2
  | case8 range rest st ih =>
    intro h1 h2
    rw [sectionLoop]
    exact ih h1 h2
  | case9 range rest st ih =>
    intro h1 h2
    rw [sectionLoop]
    exact ih h1 h2
  | case10 range st indent =>
    intro h1 h2
    rw [sectionLoop]
    exact ⟨h1, convOK_record md st.segments st.unknownRange h2⟩
  | case11 range st indent r rest title hg ht ih =>
    intro h1 h2
    rw [sectionLoop]
    simp only [hg, if_true]
    exact ih h1 (convOK_append _ _ (convOK_record md st.segments st.unknownRange h2)
      (by intro c hc; cases hc))
  | case12 range st indent r rest title hg1 hg2 ht ih =>
    intro h1 h2
    rw [sectionLoop]
    simp only [hg1, hg2, Bool.false_eq_true, if_false, if_true]
    exact ih h1 (convOK_append _ _ (convOK_record md st.segments st.unknownRange h2)
      (by intro c hc; cases hc))
  | case13 range st indent r rest title hg1 hg2 hg3 ht ih =>
    intro h1 h2
    rw [sectionLoop]
    simp only [hg1, hg2, hg3, Bool.false_eq_true, if_false, if_true]
    exact ih h1 (convOK_append _ _ (convOK_record md st.segments st.unknownRange h2)
      (by intro c hc; cases hc))
  | case14 range st indent r rest title hg1 hg2 hg3 hg4 ht conv0 p ih =>
    intro h1 h2
    rw [sectionLoop]
    simp only [hg1, hg2, hg3, hg4, Bool.false_eq_true, if_false, if_true]
    refine ih h1 (convOK_append _ _ (convOK_record md st.segments st.unknownRange h2) ?_)
    intro c hc
    injection hc with hc'
    rw [← hc']
    exact parseConvLoop_removed_nodup md indent _ _ st.unknown (by simp)
  | case15 range st indent r rest title hg1 hg2 hg3 hg4 ht ih =>
    intro h1 h2
    rw [sectionLoop]
    simp only [hg1, hg2, hg3, hg4, Bool.false_eq_true, if_false]
    exact ih h1 (convOK_record md st.segments st.unknownRange h2)
  | case16 range st indent e2 r rest ht hne ih =>
    intro h1 h2
    rw [sectionLoop]
    · exact ih h1 (convOK_record md st.segments st.unknownRange h2)
    all_goals assumption
  | case17 e range rest st hn1 hn2 hn3 hn4 hn5 ih =>
    intro h1 h2
    rw [sectionLoop]
    · exact ih h1 h2
    all_goals assumption

/-- Claim C8: removed-message lists never hold a commit id twice.  Folding
the insertion helper over any id sequence keeps exactly the first
occurrence of each id, in first-seen order (first-occurrence
deduplication), and for every parsed section both the section-level
removed list and the removed list of every conventional segment are
duplicate-free. -/
theorem removed_ids_dedup :
    (∀ ids : List ObjectId, ids.foldl addRemovedId [] = dedupFirst ids) ∧
    (∀ (md2e : Str → List ER) (h : Headline) (body : Str),
      (Section.removedOf (fromHeadlineAndBody md2e h body)).Nodup ∧
      ConvOK (Section.segmentsOf (fromHeadlineAndBody md2e h body))) := by
  constructor
  · intro ids
    rw [foldl_addRemovedId]
    simp
  · intro md2e h body
    have hinv := sectionLoop_removed_inv body (md2e body)
      { segments := [], unknown := [], unknownRange := none, removed := [] }
      (by simp) (by intro seg hseg; simp at hseg)
    exact ⟨hinv.1, convOK_record body _ _ hinv.2⟩

/-- Witness for claim C8: duplicate removed-id markers inside a
conventional group collapse to one entry in first-seen order. -/
theorem removed_ids_dedup_witness :
    ([idOne, idOne, idTwo].foldl addRemovedId [] = dedupFirst [idOne, idOne, idTwo] ∧
     dedupFirst [idOne, idOne, idTwo] = [idOne, idTwo]) ∧
    (Segment.Conventional dupConv ∈
        Section.segmentsOf (fromHeadlineAndBody dupEv plainHeadline ("x".toList)) ∧
      dupConv.removed.Nodup) := by
  have hm1 : parseMessageId markerOne = some idOne := by decide
  have hm2 : parseMessageId markerTwo = some idTwo := by decide
  simp only [markerOne, markerTwo, idOne, idTwo] at hm1 hm2
  simp at hm1 hm2
  have hseg : Section.segmentsOf (fromHeadlineAndBody dupEv plainHeadline ("x".toList)) =
      [Segment.Conventional dupConv] := by
    simp +decide [fromHeadlineAndBody, dupEv, sectionLoop, parseConvLoop, headingTail,
      recordUnknownRange, Section.segmentsOf, dupConv, addRemovedId, markerOne,
      markerTwo, idOne, idTwo, hm1, hm2]
  refine ⟨⟨removed_ids_dedup.1 [idOne, idOne, idTwo], by decide⟩, ?_, ?_⟩
  · rw [hseg]
    simp
  · exact (removed_ids_dedup.2 dupEv plainHeadline ("x".toList)).2
      (Segment.Conventional dupConv) (by rw [hseg]; simp) dupConv rfl

/-- Claim C9: a top-level list item whose first content is a
generated-message marker with a valid id parses to exactly one `Generated`
message appended to the conventional segment: its title is the first line
of the item remainder, trimmed, and its body is the concatenation of the
subsequent lines with exactly min(leading spaces, 3) leading spaces
stripped per line (`none` when there are no further lines), so nested
sub-bullets stay inside this single message's body; the item's remaining
events are consumed. -/
theorem generated_message_from_id_marker
    (markdown : Str) (conv : Conventional) (itemRange : Rg) (tag : Str)
    (events : List ER) (id : ObjectId) (first last : Rg) (tb : Str)
    (hid : parseMessageId tag = some id)
    (hfirst : (consumeItemEvents 1 events).1.head? = some first)
    (hlast : ((consumeItemEvents 1 events).1.getLast?).getD first = last)
    (htb : trimStr (sliceStr markdown ⟨first.lo, last.hi⟩) = tb) :
    parseIdFallback markdown conv itemRange tag events =
      ({ conv with messages := conv.messages ++
          [Message.Generated id
            (trimStr (((linesWithTerminator tb).head?).getD []))
            (match (linesWithTerminator tb).tail with
             | [] => none
             | rest => some ((rest.map (fun l =>
                 l.drop (min (l.takeWhile (fun c => c = ' ')).length 3))).foldl
                   (fun a b => a ++ b) []))] },
        (consumeItemEvents 1 events).2) := by
  simp only [parseIdFallback, hid, hfirst, hlast, htb, generatedTitle,
    generatedBody, stripIndentLine]
  cases hrest : (linesWithTerminator tb).tail <;> simp [hrest] <;> rfl

/-- Witness for claim C9: the spec's nested-sub-bullet example yields one
generated message whose body keeps both sub-bullets, dedented by three
spaces. -/
theorem generated_message_from_id_marker_witness :
    parseMessageId markerTwo = some idTwo ∧
    (parseIdFallback nestedMd nestedConv ⟨0, 52⟩ markerTwo nestedEvents).1.messages =
      [Message.Generated idTwo ("Added the following methods:".toList)
        (some ("- is_empty\n- len".toList))] := by
  refine ⟨by decide, ?_⟩
  rw [generated_message_from_id_marker nestedMd nestedConv ⟨0, 52⟩ markerTwo
    nestedEvents idTwo ⟨0, 29⟩ ⟨29, 52⟩
    ("Added the following methods:\n   - is_empty\n   - len".toList)
    (by decide) (by decide) (by decide) (by decide)]
  decide

/-- Counterexample to claim C5: at the section level a marker that starts
with the removed-message prefix but carries a malformed hex id is silently
dropped, not reclassified as plain/unknown content: the resulting section
has no segments, no unknown text and no removed ids. -/
theorem malformed_marker_dropped_counterexample :
    startsWith removedHtmlMarker badMarker = true ∧
    parseMessageId badMarker = none ∧
    fromHeadlineAndBody badMarkerEv plainHeadline ("x".toList) =
      Section.Release Version.Unreleased [] none [] 2 [] [] := by
  have hm : parseMessageId badMarker = none := by decide
  simp only [badMarker] at hm
  simp at hm
  refine ⟨by decide, by decide, ?_⟩
  simp +decide [fromHeadlineAndBody, badMarkerEv, sectionLoop, recordUnknownRange,
    badMarker, hm]

/-- Claim C5 (amended): parsing degrades instead of failing, with one
amendment: a headline-grammar failure rejects the line as a whole — it is
appended unchanged to the open body and nothing else of the segmenter
state changes; a malformed hex id inside a conventional group is
reclassified as unknown content (the marker text joins the unknown
accumulator) and processing continues on the remaining events; and at the
section level a malformed marker is skipped entirely — processing
continues, but the marker is dropped rather than reclassified as
plain/unknown content. -/
theorem degradation_on_malformed_input
    (md2e : Str → List ER) (st : SegState) (line : Str)
    (markdown : Str) (lvl : HLevel) (tag : Str) (r : Rg) (rest : List ER)
    (conv : Conventional) (u : Str) (t : Str) (r2 : Rg) (rest2 : List ER)
    (bst : BodyState)
    (hline : parseHeadline line = none)
    (htag : parseMessageId tag = none)
    (ht1 : startsWith unknownTagStart t = false)
    (ht2 : startsWith removedHtmlMarker t = true)
    (ht3 : parseMessageId t = none) :
    segStep md2e st line = { st with body := st.body ++ line } ∧
    parseConvLoop markdown lvl ((Event.Html tag, r) :: rest) conv u =
      parseConvLoop markdown lvl rest conv (trackUnknownEvent (Event.Html tag) u) ∧
    sectionLoop markdown ((Event.Html t, r2) :: rest2) bst =
      sectionLoop markdown rest2 bst := by
  refine ⟨by simp only [segStep, hline], ?_, ?_⟩
  · rw [parseConvLoop]
    simp only [htag]
  · rw [sectionLoop]
    simp only [ht1, ht2, ht3, Bool.false_eq_true, if_false, if_true]

/-- Witness for claim C5: a plain line joins the body, and the malformed
marker is tracked as unknown inside a conventional group but skipped at
the section level. -/
theorem degradation_on_malformed_input_witness :
    (segStep oneTextEv
        { sections := [], body := "b".toList, prevHeadline := none, firstLevel := none }
        ("plain\n".toList) =
      { sections := [], body := "b".toList ++ "plain\n".toList,
        prevHeadline := none, firstLevel := none }) ∧
    (parseConvLoop ("x".toList) HLevel.h3 [(Event.Html badMarker, ⟨0, 13⟩)] nestedConv [] =
      parseConvLoop ("x".toList) HLevel.h3 [] nestedConv
        (trackUnknownEvent (Event.Html badMarker) [])) ∧
    (sectionLoop ("x".toList) [(Event.Html badMarker, ⟨0, 13⟩)]
        { segments := [], unknown := [], unknownRange := none, removed := [] } =
      sectionLoop ("x".toList) []
        { segments := [], unknown := [], unknownRange := none, removed := [] }) :=
  degradation_on_malformed_input oneTextEv
    { sections := [], body := "b".toList, prevHeadline := none, firstLevel := none }
    ("plain\n".toList) ("x".toList) HLevel.h3 badMarker ⟨0, 13⟩ [] nestedConv []
    badMarker ⟨0, 13⟩ []
    { segments := [], unknown := [], unknownRange := none, removed := [] }
    (by decide) (by decide) (by decide) (by decide) (by decide)

/-- Counterexample to claim C10: a marker whose hex run reaches the end of
the string is rejected, but the rejected marker is not treated as unknown
content: at the section level it is silently dropped — the resulting
section has no segments, no unknown text and no removed ids — and as the
first content of a list item the whole item becomes a `User` message. -/
theorem parseMessageId_unknown_counterexample :
    parseMessageId noTermMarker = none ∧
    startsWith removedHtmlMarker noTermMarker = true ∧
    fromHeadlineAndBody noTermEv plainHeadline ("x".toList) =
      Section.Release Version.Unreleased [] none [] 2 [] [] ∧
    parseIdFallback ("x".toList) nestedConv ⟨0, 1⟩ noTermMarker [] =
      makeUserMessage ("x".toList) nestedConv ⟨0, 1⟩ [] := by
  have hm : parseMessageId noTermMarker = none := by decide
  simp only [noTermMarker] at hm
  simp at hm
  refine ⟨by decide, by decide, ?_, rfl⟩
  simp +decide [fromHeadlineAndBody, noTermEv, sectionLoop, recordUnknownRange,
    noTermMarker, hm]

/-- Claim C10 (amended): `parse_message_id` yields an id exactly when the
marker starts with the removed-message opening, continues with exactly 40
lowercase hex digits, and that run is terminated by a further character of
the string (a run to the end of the string, or one cut short, yields
`none`); a rejected marker never becomes an id, but its further treatment
depends on the context: as the first content of a list item the whole item
becomes a `User` message, inside a conventional group's event stream its
text joins the unknown accumulator, and at the section level the marker is
skipped entirely, contributing neither an id nor unknown content. -/
theorem parseMessageId_rejection_behavior :
    (∀ html : Str,
      (∃ id, parseMessageId html = some id) ↔
        (startsWith removedHtmlMarker html = true ∧
         ((html.drop removedHtmlMarker.length).takeWhile isLowerHexDigit).length = 40 ∧
         ((html.drop removedHtmlMarker.length).takeWhile isLowerHexDigit).length <
           (html.drop removedHtmlMarker.length).length)) ∧
    (∀ (markdown : Str) (conv : Conventional) (itemRange : Rg) (tag : Str)
        (events : List ER), parseMessageId tag = none →
      parseIdFallback markdown conv itemRange tag events =
        makeUserMessage markdown conv itemRange events) ∧
    (∀ (markdown : Str) (lvl : HLevel) (tag : Str) (r : Rg) (rest : List ER)
        (conv : Conventional) (u : Str), parseMessageId tag = none →
      parseConvLoop markdown lvl ((Event.Html tag, r) :: rest) conv u =
        parseConvLoop markdown lvl rest conv (trackUnknownEvent (Event.Html tag) u)) ∧
    (∀ (md t : Str) (r : Rg) (rest : List ER) (st : BodyState),
      startsWith unknownTagStart t = false →
      startsWith removedHtmlMarker t = true →
      parseMessageId t = none →
      sectionLoop md ((Event.Html t, r) :: rest) st = sectionLoop md rest st) := by
  refine ⟨parseMessageId_characterization, ?_, ?_, ?_⟩
  · intro markdown conv itemRange tag events h
    rw [parseIdFallback]
    simp only [h]
  · intro markdown lvl tag r rest conv u h
    rw [parseConvLoop]
    simp only [h]
  · intro md t r rest st h1 h2 h3
    rw [sectionLoop]
    simp only [h1, h2, h3, Bool.false_eq_true, if_false, if_true]

/-- Witness for claim C10: the well-formed marker parses to an id, and the
unterminated marker falls to the three context behaviors. -/
theorem parseMessageId_rejection_behavior_witness :
    (∃ id, parseMessageId markerOne = some id) ∧
    parseIdFallback ("x".toList) nestedConv ⟨0, 1⟩ noTermMarker [] =
      makeUserMessage ("x".toList) nestedConv ⟨0, 1⟩ [] ∧
    parseConvLoop ("x".toList) HLevel.h3 [(Event.Html noTermMarker, ⟨0, 48⟩)]
        nestedConv [] =
      parseConvLoop ("x".toList) HLevel.h3 [] nestedConv
        (trackUnknownEvent (Event.Html noTermMarker) []) ∧
    sectionLoop ("x".toList) [(Event.Html noTermMarker, ⟨0, 48⟩)]
        { segments := [], unknown := [], unknownRange := none, removed := [] } =
      sectionLoop ("x".toList) []
        { segments := [], unknown := [], unknownRange := none, removed := [] } :=
  ⟨(parseMessageId_rejection_behavior.1 markerOne).mpr
      ⟨by decide, by decide, by decide⟩,
   parseMessageId_rejection_behavior.2.1 ("x".toList) nestedConv ⟨0, 1⟩
     noTermMarker [] (by decide),
   parseMessageId_rejection_behavior.2.2.1 ("x".toList) HLevel.h3 noTermMarker
     ⟨0, 48⟩ [] nestedConv [] (by decide),
   parseMessageId_rejection_behavior.2.2.2 ("x".toList) noTermMarker ⟨0, 48⟩ []
     { segments := [], unknown := [], unknownRange := none, removed := [] }
     (by decide) (by decide) (by decide)⟩

end CargoSmartRelease
